import Mathlib

/-!
Verification development for the country/currency exchange catalog service.

The service ingests country records and currency exchange rates, reconciles
them into a persisted catalog (`refresh_countries`), and serves the catalog
through query routes.  This file gives a shallow embedding of the relevant
code paths and proves properties about them:

* the per-record transformer (`extract_currency_code`,
  `calculate_estimated_gdp`, `process_country_data`);
* the reconciliation loop (`refresh_countries`), including its
  case-insensitive upsert behaviour and idempotence;
* the query service (`get_countries`) with its filter and sort handling;
* the HTTP route behaviour for the refresh and summary-image endpoints.

Numeric JSON/float values are modelled as `ℚ`; Python `None`/missing keys
are modelled with `Option`; exceptions are modelled with `Except`.
The random multiplier drawn by `random.uniform(1000, 2000)` is modelled by
passing the underlying draw `r ∈ [0, 1)` of `random.random()` explicitly,
so the randomized computation becomes a deterministic function of the draw.
-/

namespace CountryAPI

/-- A Python runtime error surfaced while processing a single record
(the only one our embedding can produce is a `TypeError`, e.g. from
`None * float` or from calling a method with a missing argument). -/
inductive PyErr where
  | typeError
  deriving DecidableEq, Repr

/-- One element of a raw country record's `currencies` array.  The source's
`extract_currency_code` distinguishes dict elements (from which it reads the
`"code"` key), bare strings, and anything else. -/
inductive CurrencyEntry where
  /-- A JSON object; `fields` are its key/value pairs, a value being
  `none` when it is JSON `null`. -/
  | obj (fields : List (String × Option String))
  /-- A bare string currency code. -/
  | str (s : String)
  /-- Any other shape (number, array, ...). -/
  | other
  deriving DecidableEq, Repr

/-- A raw country record as drawn from the countries upstream API.
`name`/`capital`/`region`/`flag` model `dict.get(key)` (absent or JSON
`null` collapse to `none`).  `population` keeps the absent/null distinction
because the source applies `country_data.get("population", 0)`:
`none` means the key is absent, `some none` means it is explicitly `null`,
`some (some n)` is an integer value.  `currencies` models
`country_data.get("currencies", [])`, an absent or null array collapsing to
`[]` (both are falsy and yield no currency code in the source). -/
structure RawCountry where
  name : Option String
  capital : Option String
  region : Option String
  population : Option (Option Int)
  flag : Option String
  currencies : List CurrencyEntry
  deriving DecidableEq, Repr

/-- `dict.get key` on a JSON object: first matching key's value, flattening
a JSON `null` value to `none` as Python's `.get` returns `None` for both an
absent key and a null value. -/
def dictGet (fields : List (String × Option String)) (key : String) : Option String :=
  match fields with
  | [] => none
  | (k, v) :: rest => if k == key then v else dictGet rest key

/-- The exchange-rate table returned by the rate upstream: a finite map from
currency code to rate, modelled as an association list. -/
def RateTable : Type := List (String × ℚ)

/-- `rates.get code` on the exchange-rate table. -/
def ratesGet (rates : RateTable) (code : String) : Option ℚ :=
  match rates with
  | [] => none
  | (k, v) :: rest => if k == code then some v else ratesGet rest code

/-- `country_data.get("population", 0)`: an absent key defaults to the
integer `0`; an explicit JSON `null` stays `None`. -/
def pyPopulation (cd : RawCountry) : Option Int :=
  match cd.population with
  | none => some 0
  | some v => v

/-- `extract_currency_code` from the service: take the first element of the
currency list; a dict yields its `"code"` entry via `.get`, a bare string
yields itself, anything else (or an empty list) yields `None`. -/
def extract_currency_code (currencies : List CurrencyEntry) : Option String :=
  match currencies with
  | [] => none
  | first_currency :: _ =>
    match first_currency with
    | .obj fields => dictGet fields "code"
    | .str s => some s
    | .other => none

/-- `random.uniform a b` for an underlying draw `r` of `random.random()`:
`a + (b - a) * r`. -/
def uniform (a b r : ℚ) : ℚ := a + (b - a) * r

/-- `calculate_estimated_gdp` from the service: a `None` or zero exchange
rate yields `None`; otherwise the result is
`population * random.uniform 1000 2000 / exchange_rate`.  A `None`
population reaches `population * multiplier` and raises `TypeError`
(this can only happen when the rate is known and nonzero, since the
null/zero-rate guard returns before the multiplication). -/
def calculate_estimated_gdp (population : Option Int) (exchange_rate : Option ℚ)
    (r : ℚ) : Except PyErr (Option ℚ) :=
  match exchange_rate with
  | none => .ok none
  | some rate =>
    if rate = 0 then .ok none
    else
      match population with
      | none => .error .typeError
      | some pop => .ok (some ((pop * uniform 1000 2000 r) / rate))

/-- The normalized record produced by `process_country_data` (the dict the
reconciliation loop persists). -/
structure ProcessedCountry where
  name : Option String
  capital : Option String
  region : Option String
  population : Option Int
  currency_code : Option String
  exchange_rate : Option ℚ
  estimated_gdp : Option ℚ
  flag_url : Option String
  deriving DecidableEq, Repr

/-- `process_country_data` from the service: extract the currency code; with
no code, the exchange rate is `None` and `estimated_gdp` is forced to `0.0`;
with a code but no rate-table entry, `estimated_gdp` is `None`; otherwise
`calculate_estimated_gdp` runs (and its `TypeError` on a `None` population
propagates). -/
def process_country_data (country_data : RawCountry) (exchange_rates : RateTable)
    (r : ℚ) : Except PyErr ProcessedCountry :=
  let population := pyPopulation country_data
  match extract_currency_code country_data.currencies with
  | none =>
    .ok ⟨country_data.name, country_data.capital, country_data.region, population,
         none, none, some 0, country_data.flag⟩
  | some currency_code =>
    match ratesGet exchange_rates currency_code with
    | none =>
      .ok ⟨country_data.name, country_data.capital, country_data.region, population,
           some currency_code, none, none, country_data.flag⟩
    | some exchange_rate =>
      match calculate_estimated_gdp population (some exchange_rate) r with
      | .error e => .error e
      | .ok estimated_gdp =>
        .ok ⟨country_data.name, country_data.capital, country_data.region, population,
             some currency_code, some exchange_rate, estimated_gdp, country_data.flag⟩

/-! ## The persisted store and the reconciliation loop

The store is the list of persisted `Country` rows, in insertion order.
`last_refreshed_at` (a wall-clock timestamp) and the surrogate `id` are not
part of the embedding.  The identity query
`select(Country).where(func.lower(Country.name) == func.lower(name))` with
`.first()` is modelled by the index of the first row whose lowercased name
matches; SQL `lower` and Python `str.lower` are modelled by ASCII
lowercasing of the character list. -/

/-- A persisted `Country` row (without `id` and `last_refreshed_at`). -/
structure StoredCountry where
  name : String
  capital : Option String
  region : Option String
  population : Int
  currency_code : Option String
  exchange_rate : Option ℚ
  estimated_gdp : Option ℚ
  flag_url : Option String
  deriving DecidableEq, Repr

/-- ASCII lowercasing of one character. -/
def pyLowerChar (c : Char) : Char :=
  if 'A' ≤ c ∧ c ≤ 'Z' then Char.ofNat (c.toNat + 32) else c

/-- The lowercased character list of a string: the key used for
case-insensitive name matching. -/
def lowKey (s : String) : List Char := s.data.map pyLowerChar

/-- Index of the first occurrence of `low` in a list of lowercased names
(the row `.first()` would return for the case-insensitive name query). -/
def idxLow (low : List Char) : List (List Char) → Option Nat
  | [] => none
  | n :: rest => if n == low then some 0 else (idxLow low rest).map (· + 1)

/-- The lowercased names of the stored rows, in store order. -/
def lowNames (store : List StoredCountry) : List (List Char) :=
  store.map fun c => lowKey c.name

/-- The loop's recomputation of the persisted exchange rate
(`if currency_code and exchange_rates.get(currency_code): ... else None`):
Python truthiness drops an empty-string code and a zero rate to `None`. -/
def rateOverride (code : Option String) (rates : RateTable) : Option ℚ :=
  match code with
  | none => none
  | some c =>
    if c = "" then none
    else
      match ratesGet rates c with
      | none => none
      | some v => if v = 0 then none else some v

/-- The per-record data the loop persists: `process_country_data` followed by
the loop's re-extraction of the currency code and the truthiness-guarded
`exchange_rate` override. -/
def refreshProcessed (cd : RawCountry) (rates : RateTable) (r : ℚ) :
    Except PyErr ProcessedCountry :=
  match process_country_data cd rates r with
  | .error e => .error e
  | .ok pd =>
    let code := extract_currency_code cd.currencies
    .ok { pd with currency_code := code, exchange_rate := rateOverride code rates }

/-- Build the persisted row from the validated processed data (`name` and
`population` are known non-null once validation passed). -/
def toStored (nm : String) (pop : Int) (pd : ProcessedCountry) : StoredCountry :=
  ⟨nm, pd.capital, pd.region, pop, pd.currency_code, pd.exchange_rate,
   pd.estimated_gdp, pd.flag_url⟩

/-- One iteration of the reconciliation loop on one raw record: process it
(a raised error skips the record), validate `name` truthy and `population`
non-null (failing validation skips), then update the first case-insensitive
name match in place or insert a new row.  Returns the new store and the
(update, insert) contribution of this record. -/
def refreshStep (rates : RateTable) (r : ℚ) (store : List StoredCountry)
    (cd : RawCountry) : List StoredCountry × Nat × Nat :=
  match refreshProcessed cd rates r with
  | .error _ => (store, 0, 0)
  | .ok pd =>
    match pd.name, pd.population with
    | some nm, some pop =>
      if nm = "" then (store, 0, 0)
      else
        match idxLow (lowKey nm) (lowNames store) with
        | some j => (store.set j (toStored nm pop pd), 1, 0)
        | none => (store ++ [toStored nm pop pd], 0, 1)
    | _, _ => (store, 0, 0)

/-- The reconciliation loop over the fetched records.  `i` indexes the raw
records so each record's potential random draw `rdraw i` is independent;
returns the final store with the accumulated (updated, inserted) counts. -/
def refreshLoop (rates : RateTable) (rdraw : Nat → ℚ) :
    Nat → List StoredCountry → List RawCountry → List StoredCountry × Nat × Nat
  | _, store, [] => (store, 0, 0)
  | i, store, cd :: rest =>
    let step := refreshStep rates (rdraw i) store cd
    let restRes := refreshLoop rates rdraw (i + 1) step.1 rest
    (restRes.1, step.2.1 + restRes.2.1, step.2.2 + restRes.2.2)

/-- `refresh_countries` (given already-fetched upstream data): run the loop,
then report `(store, total, updated, inserted)` where `total` is the
post-commit `select count(*)`. -/
def refresh_countries (rates : RateTable) (countries_data : List RawCountry)
    (rdraw : Nat → ℚ) (store : List StoredCountry) :
    List StoredCountry × Nat × Nat × Nat :=
  let res := refreshLoop rates rdraw 0 store countries_data
  (res.1, res.1.length, res.2.1, res.2.2)

/-- A record passes the loop's validation and never raises while being
processed iff its `name` is a non-empty string and its `population` is not
explicitly `null` (`TypeError` from `None * multiplier` implies a `null`
population, which validation would skip anyway). -/
def validB (cd : RawCountry) : Bool :=
  (match cd.name with
   | some s => !(s == "")
   | none => false) && (pyPopulation cd).isSome

/-- The `name` string of a record (defaulting to `""`); for a record passing
validation this is the non-empty persisted name. -/
def nameStr (cd : RawCountry) : String :=
  match cd.name with
  | some s => s
  | none => ""

/-- Number of records of a batch that pass validation. -/
def countValid (payload : List RawCountry) : Nat := payload.countP validB

/-! ## The store with `estimated_gdp` erased

`estimated_gdp` is the only persisted field that depends on the random
draws.  To reason about what a refresh does up to the randomized field, we
project rows onto records without `estimated_gdp`; the projected image of a
refresh is independent of the draws. -/

/-- A persisted row with the randomized `estimated_gdp` field erased. -/
structure StoredBase where
  name : String
  capital : Option String
  region : Option String
  population : Int
  currency_code : Option String
  exchange_rate : Option ℚ
  flag_url : Option String
  deriving DecidableEq, Repr

/-- Erase the randomized `estimated_gdp` field of a row. -/
def eraseGdp (c : StoredCountry) : StoredBase :=
  ⟨c.name, c.capital, c.region, c.population, c.currency_code, c.exchange_rate,
   c.flag_url⟩

/-- Processed data with `estimated_gdp` erased. -/
structure ProcessedBase where
  name : Option String
  capital : Option String
  region : Option String
  population : Option Int
  currency_code : Option String
  exchange_rate : Option ℚ
  flag_url : Option String
  deriving DecidableEq, Repr

/-- Erase `estimated_gdp` from processed data. -/
def erasePd (pd : ProcessedCountry) : ProcessedBase :=
  ⟨pd.name, pd.capital, pd.region, pd.population, pd.currency_code,
   pd.exchange_rate, pd.flag_url⟩

/-! ## The query service (`get_countries`)

Filters are case-insensitive equality on `region` and `currency_code`
(SQL `lower(col) == lower(param)`; a `NULL` column never matches).  Sorting
mirrors the route's `elif` chain: an absent or empty (falsy) `sort` applies
the default `name` ascending order; a recognized key applies its order; an
unrecognized non-empty key applies **no** `ORDER BY` at all. -/

/-- `ORDER BY name ASC` as a relation on rows (lexicographic on the
character list). -/
def nameAscB (a b : StoredCountry) : Bool := decide (a.name.data ≤ b.name.data)

/-- `ORDER BY name DESC`. -/
def nameDescB (a b : StoredCountry) : Bool := decide (b.name.data ≤ a.name.data)

/-- `ORDER BY population ASC`. -/
def popAscB (a b : StoredCountry) : Bool := decide (a.population ≤ b.population)

/-- `ORDER BY population DESC`. -/
def popDescB (a b : StoredCountry) : Bool := decide (b.population ≤ a.population)

/-- `ORDER BY estimated_gdp DESC NULLS LAST`. -/
def gdpDescB (a b : StoredCountry) : Bool :=
  match a.estimated_gdp, b.estimated_gdp with
  | some x, some y => decide (y ≤ x)
  | some _, none => true
  | none, some _ => false
  | none, none => true

/-- `ORDER BY estimated_gdp ASC NULLS FIRST`. -/
def gdpAscB (a b : StoredCountry) : Bool :=
  match a.estimated_gdp, b.estimated_gdp with
  | some x, some y => decide (x ≤ y)
  | none, _ => true
  | some _, none => false

/-- Python `str.lower()` (ASCII model, matching SQL `lower`). -/
def pyLower (s : String) : String := ⟨lowKey s⟩

/-- The filter stage of `get_countries`: case-insensitive equality on
`region`, then on `currency_code`; an absent (or falsy empty) parameter
applies no constraint. -/
def filterCountries (store : List StoredCountry) (region currency : Option String) :
    List StoredCountry :=
  let s1 :=
    match region with
    | none => store
    | some rg =>
      if rg = "" then store
      else
        store.filter fun c =>
          match c.region with
          | some cr => lowKey cr == lowKey rg
          | none => false
  match currency with
  | none => s1
  | some cur =>
    if cur = "" then s1
    else
      s1.filter fun c =>
        match c.currency_code with
        | some cc => lowKey cc == lowKey cur
        | none => false

/-- `get_countries` from the service: filter, then apply the sort chain.
Each recognized sort key applies its order; the trailing `else` of the
source's `if sort:` only fires when `sort` is absent or falsy, so a
non-empty unrecognized key leaves the statement without an `ORDER BY`
(modelled as returning the filtered rows in store order). -/
def get_countries (store : List StoredCountry)
    (region currency sort : Option String) : List StoredCountry :=
  let s := filterCountries store region currency
  match sort with
  | none => s.insertionSort fun a b => nameAscB a b = true
  | some srt =>
    if srt = "" then s.insertionSort fun a b => nameAscB a b = true
    else
      let sl := pyLower srt
      if sl == "gdp_desc" then s.insertionSort fun a b => gdpDescB a b = true
      else if sl == "gdp_asc" then s.insertionSort fun a b => gdpAscB a b = true
      else if sl == "population_desc" then s.insertionSort fun a b => popDescB a b = true
      else if sl == "population_asc" then s.insertionSort fun a b => popAscB a b = true
      else if sl == "name_asc" then s.insertionSort fun a b => nameAscB a b = true
      else if sl == "name_desc" then s.insertionSort fun a b => nameDescB a b = true
      else s

/-! ## Upstream fetches and the refresh route

The two fetches are network effects; the embedding takes their outcomes as
`Except` inputs.  A failure raises `Exception(message)`; `refresh_countries`
does not catch it, so the route receives it before any store access.  The
route classifies the message by substring tests (Python's `in`) and answers
`503` naming the failed upstream, or `500` otherwise. -/

/-- Does `sub` occur at the start of `s`? -/
def startsWithChars : List Char → List Char → Bool
  | _, [] => true
  | [], _ :: _ => false
  | c :: cs, d :: ds => c == d && startsWithChars cs ds

/-- Does `sub` occur anywhere in `s`? -/
def containsChars : List Char → List Char → Bool
  | [], sub => startsWithChars [] sub
  | c :: t, sub => startsWithChars (c :: t) sub || containsChars t sub

/-- Python's `sub in s` on strings. -/
def pyIn (sub s : String) : Bool := containsChars s.data sub.data

/-- Failure of the countries upstream fetch: `httpx.TimeoutException` or an
`httpx.HTTPError` carrying a detail string. -/
inductive CountriesFetchErr where
  | timedOut
  | httpError (detail : String)
  deriving DecidableEq, Repr

/-- Failure of the exchange-rate upstream fetch. -/
inductive RatesFetchErr where
  | timedOut
  | httpError (detail : String)
  deriving DecidableEq, Repr

/-- The `Exception` message `fetch_countries_data` raises. -/
def countriesErrMessage : CountriesFetchErr → String
  | .timedOut => "Countries API request timed out"
  | .httpError d => "Could not fetch data from Countries API: " ++ d

/-- The `Exception` message `fetch_exchange_rates` raises. -/
def ratesErrMessage : RatesFetchErr → String
  | .timedOut => "Exchange Rate API request timed out"
  | .httpError d => "Could not fetch data from Exchange Rate API: " ++ d

/-- The failure a refresh surfaces: whichever upstream fetch raised. -/
inductive RefreshErr where
  | countries (e : CountriesFetchErr)
  | rates (e : RatesFetchErr)
  deriving DecidableEq, Repr

/-- `str(e)` of the surfaced refresh failure. -/
def refreshErrMessage : RefreshErr → String
  | .countries e => countriesErrMessage e
  | .rates e => ratesErrMessage e

/-- `refresh_countries` including its two upstream fetches: the countries
fetch result is consulted first, then the rates fetch; either failure
propagates before the loop touches the store, so the store is returned
unchanged alongside the error. -/
def refresh_countries_full (countriesFetch : Except CountriesFetchErr (List RawCountry))
    (ratesFetch : Except RatesFetchErr RateTable) (rdraw : Nat → ℚ)
    (store : List StoredCountry) :
    List StoredCountry × Except RefreshErr (Nat × Nat × Nat) :=
  match countriesFetch with
  | .error e => (store, .error (.countries e))
  | .ok countries_data =>
    match ratesFetch with
    | .error e => (store, .error (.rates e))
    | .ok rates =>
      let res := refresh_countries rates countries_data rdraw store
      (res.1, .ok res.2)

/-- Outcome of `POST /countries/refresh`. -/
inductive RefreshRouteResult where
  | ok200 (total updated inserted : Nat)
  | unavailable503 (apiName : String)
  | internalError500
  deriving DecidableEq, Repr

/-- The `POST /countries/refresh` route: on success answer `200` with the
counts; on an exception whose message contains `"Could not fetch data"` or
`"timed out"`, answer `503` naming `"Countries API"` if the message
contains it and `"Exchange Rate API"` otherwise; any other exception
answers `500`. -/
def refresh_countries_route (countriesFetch : Except CountriesFetchErr (List RawCountry))
    (ratesFetch : Except RatesFetchErr RateTable) (rdraw : Nat → ℚ)
    (store : List StoredCountry) : List StoredCountry × RefreshRouteResult :=
  match refresh_countries_full countriesFetch ratesFetch rdraw store with
  | (s, .ok counts) => (s, .ok200 counts.1 counts.2.1 counts.2.2)
  | (s, .error e) =>
    let msg := refreshErrMessage e
    if pyIn "Could not fetch data" msg || pyIn "timed out" msg then
      (s, .unavailable503
            (if pyIn "Countries API" msg then "Countries API" else "Exchange Rate API"))
    else (s, .internalError500)

/-! ## The summary image and its route

The artifact state records whether the cache directory and the rendered
`summary.png` exist.  The rendering routine itself is an external
collaborator: its only specified effect is creating the directory
(`os.makedirs(..., exist_ok=True)`) and writing the file. -/

/-- Filesystem state of the summary artifact. -/
structure ImageState where
  cacheDirExists : Bool
  summaryExists : Bool
  deriving DecidableEq, Repr

/-- `generate_summary_image` (external rendering routine): ensures the cache
directory exists and writes `{cache_dir}/summary.png`. -/
def generate_summary_image (_total : Nat) (_top : List (String × Option ℚ))
    (_st : ImageState) : ImageState :=
  ⟨true, true⟩

/-- The top-5-by-`estimated_gdp` query feeding the summary image: rows with
a non-null `estimated_gdp`, ordered descending, first five, projected to
`(name, estimated_gdp)`. -/
def top_countries (db : List StoredCountry) : List (String × Option ℚ) :=
  (((db.filter fun c => c.estimated_gdp.isSome).insertionSort
      fun a b => gdpDescB a b = true).take 5).map
    fun c => (c.name, c.estimated_gdp)

/-- `generate_summary`: render the image from the store's count and its
top-5 ranking. -/
def generate_summary (db : List StoredCountry) (st : ImageState) : ImageState :=
  generate_summary_image db.length (top_countries db) st

/-- `generate_summary_image_if_missing(self, db)`: create the cache dir if
missing, then render the summary only if `{cache_dir}/summary.png` does not
exist yet. -/
def generate_summary_image_if_missing (db : List StoredCountry)
    (st : ImageState) : ImageState :=
  let st1 := if st.cacheDirExists then st else { st with cacheDirExists := true }
  if st1.summaryExists then st1 else generate_summary db st1

/-- Python call semantics for a bound method invoked with **zero**
arguments: if the method has any required positional parameter, the call
raises `TypeError` before the body runs. -/
def callNoArgs {σ : Type} (requiredArgs : Nat) (body : σ → σ) (st : σ) :
    Except PyErr σ :=
  if requiredArgs = 0 then .ok (body st) else .error .typeError

/-- `generate_summary_image_if_missing` has one required positional
parameter after `self`, namely `db`. -/
def generate_summary_image_if_missing_requiredArgs : Nat := 1

/-- Name-ascending order is total. -/
instance : IsTotal StoredCountry (fun a b => nameAscB a b = true) :=
  ⟨fun a b => by
    simp only [nameAscB, decide_eq_true_eq]
    exact le_total a.name.data b.name.data⟩

/-- Name-ascending order is transitive. -/
instance : IsTrans StoredCountry (fun a b => nameAscB a b = true) :=
  ⟨fun a b c hab hbc => by
    simp only [nameAscB, decide_eq_true_eq] at *
    exact le_trans hab hbc⟩

/-- Outcome of `GET /countries/image`. -/
inductive ImageRouteResult where
  | fileResponse
  | notFound404
  | internalError500
  deriving DecidableEq, Repr

/-- The `GET /countries/image` route: it invokes
`ser.generate_summary_image_if_missing()` **with no argument** (the route
has no session dependency to pass), then answers the file if
`{cache_dir}/summary.png` exists and `404` otherwise.  An uncaught
exception from the call yields the framework's `500` response. -/
def get_summary_image (db : List StoredCountry) (st : ImageState) :
    ImageState × ImageRouteResult :=
  match callNoArgs generate_summary_image_if_missing_requiredArgs
      (generate_summary_image_if_missing db) st with
  | .error _ => (st, .internalError500)
  | .ok st' => if st'.summaryExists then (st', .fileResponse) else (st', .notFound404)

/-! ## Case analysis of the transformer -/

/-- With no extractable currency code, the transformer forces
`estimated_gdp` to `0.0` and nulls the rate. -/
theorem process_country_data_noCode (cd : RawCountry) (rates : RateTable) (r : ℚ)
    (h : extract_currency_code cd.currencies = none) :
    process_country_data cd rates r =
      .ok ⟨cd.name, cd.capital, cd.region, pyPopulation cd, none, none, some 0,
           cd.flag⟩ := by
  simp [process_country_data, h]

/-- With a code but no rate-table entry, `estimated_gdp` is `None`. -/
theorem process_country_data_noRate (cd : RawCountry) (rates : RateTable) (r : ℚ)
    (c : String) (hc : extract_currency_code cd.currencies = some c)
    (hr : ratesGet rates c = none) :
    process_country_data cd rates r =
      .ok ⟨cd.name, cd.capital, cd.region, pyPopulation cd, some c, none, none,
           cd.flag⟩ := by
  simp [process_country_data, hc, hr]

/-- With a code whose table entry is exactly `0`, the transformer keeps the
zero rate in its output but `calculate_estimated_gdp` yields `None`. -/
theorem process_country_data_zeroRate (cd : RawCountry) (rates : RateTable) (r : ℚ)
    (c : String) (hc : extract_currency_code cd.currencies = some c)
    (hr : ratesGet rates c = some 0) :
    process_country_data cd rates r =
      .ok ⟨cd.name, cd.capital, cd.region, pyPopulation cd, some c, some 0, none,
           cd.flag⟩ := by
  simp [process_country_data, hc, hr, calculate_estimated_gdp]

/-- With a nonzero rate but an explicitly-`null` population, the
multiplication raises `TypeError`. -/
theorem process_country_data_nullPop (cd : RawCountry) (rates : RateTable) (r : ℚ)
    (c : String) (v : ℚ) (hc : extract_currency_code cd.currencies = some c)
    (hr : ratesGet rates c = some v) (hv : v ≠ 0)
    (hp : pyPopulation cd = none) :
    process_country_data cd rates r = .error .typeError := by
  simp [process_country_data, hc, hr, calculate_estimated_gdp, hv, hp]

/-- With a nonzero rate and a known population, the transformer computes
`population * uniform 1000 2000 r / rate`. -/
theorem process_country_data_computed (cd : RawCountry) (rates : RateTable) (r : ℚ)
    (c : String) (v : ℚ) (p : Int) (hc : extract_currency_code cd.currencies = some c)
    (hr : ratesGet rates c = some v) (hv : v ≠ 0)
    (hp : pyPopulation cd = some p) :
    process_country_data cd rates r =
      .ok ⟨cd.name, cd.capital, cd.region, some p, some c, some v,
           some ((p * uniform 1000 2000 r) / v), cd.flag⟩ := by
  simp [process_country_data, hc, hr, calculate_estimated_gdp, hv, hp]

/-! ## Claims C4 and C7: the GDP derivation policy -/

/-- C4: for every raw record transformed against a rate table, an empty or
absent currency list gives `estimated_gdp = 0.0` exactly (with a null rate
and code); an extracted code missing from the rate table gives
`estimated_gdp = null`; any other `estimated_gdp` value arises only from a
known code with a nonzero matching rate (and a known population), as the
computed `population * multiplier / rate`; and the `0.0` and `null`
outcomes are distinct values. -/
theorem claim_C4_gdp_policy (cd : RawCountry) (rates : RateTable) (r : ℚ) :
    (extract_currency_code cd.currencies = none →
      ∃ pd, process_country_data cd rates r = .ok pd ∧
        pd.estimated_gdp = some 0 ∧ pd.currency_code = none ∧
        pd.exchange_rate = none) ∧
    (∀ c, extract_currency_code cd.currencies = some c →
      ratesGet rates c = none →
      ∃ pd, process_country_data cd rates r = .ok pd ∧
        pd.estimated_gdp = none ∧ pd.currency_code = some c) ∧
    (∀ pd, process_country_data cd rates r = .ok pd →
      pd.estimated_gdp ≠ some 0 → pd.estimated_gdp ≠ none →
      ∃ c v p, extract_currency_code cd.currencies = some c ∧
        ratesGet rates c = some v ∧ v ≠ 0 ∧ pyPopulation cd = some p ∧
        pd.estimated_gdp = some ((p * uniform 1000 2000 r) / v)) ∧
    (some (0 : ℚ) ≠ (none : Option ℚ)) := by
  refine ⟨?_, ?_, ?_, by simp⟩
  · intro h
    exact ⟨_, process_country_data_noCode cd rates r h, rfl, rfl, rfl⟩
  · intro c hc hr
    exact ⟨_, process_country_data_noRate cd rates r c hc hr, rfl, rfl⟩
  · intro pd hpd hne0 hnn
    rcases hx : extract_currency_code cd.currencies with _ | c
    · rw [process_country_data_noCode cd rates r hx] at hpd
      cases hpd
      exact absurd rfl hne0
    · rcases hrx : ratesGet rates c with _ | v
      · rw [process_country_data_noRate cd rates r c hx hrx] at hpd
        cases hpd
        exact absurd rfl hnn
      · by_cases hv : v = 0
        · subst hv
          rw [process_country_data_zeroRate cd rates r c hx hrx] at hpd
          cases hpd
          exact absurd rfl hnn
        · rcases hp : pyPopulation cd with _ | p
          · rw [process_country_data_nullPop cd rates r c v hx hrx hv hp] at hpd
            cases hpd
          · rw [process_country_data_computed cd rates r c v p hx hrx hv hp] at hpd
            cases hpd
            exact ⟨c, v, p, rfl, hrx, hv, rfl, rfl⟩

/-- Witness for C4 at concrete inputs: a record with an empty currency list
gets `estimated_gdp = 0.0`, and one whose code is absent from the rate
table gets `estimated_gdp = null`. -/
theorem claim_C4_gdp_policy_witness :
    (∃ pd, process_country_data ⟨some "Aland", none, none, some (some 3), none, []⟩
        [] 0 = .ok pd ∧
      pd.estimated_gdp = some 0 ∧ pd.currency_code = none ∧
      pd.exchange_rate = none) ∧
    (∃ pd, process_country_data
        ⟨some "Utopia", none, none, some (some 3), none, [.str "USD"]⟩ [] 0 =
          .ok pd ∧
      pd.estimated_gdp = none ∧ pd.currency_code = some "USD") :=
  ⟨(claim_C4_gdp_policy ⟨some "Aland", none, none, some (some 3), none, []⟩ [] 0).1
      rfl,
   (claim_C4_gdp_policy
        ⟨some "Utopia", none, none, some (some 3), none, [.str "USD"]⟩ [] 0).2.1
      "USD" rfl rfl⟩

/-- C7 fails as stated: with population `1`, rate `1` and random draw `0`,
`calculate_estimated_gdp` returns exactly `population * 1000 / rate`
(`random.uniform` draws from the closed-below interval), which is **not**
strictly between the claimed bounds. -/
theorem claim_C7_counterexample :
    calculate_estimated_gdp (some 1) (some 1) 0 = .ok (some 1000) ∧
    ¬ ((1 : ℚ) * 1000 / 1 < 1000) := by
  constructor
  · simp [calculate_estimated_gdp, uniform]
  · norm_num

/-- C7 (amended): for every population and nonzero rate the result is
`population * m / rate` with the multiplier `m = uniform 1000 2000 r`
satisfying `1000 ≤ m < 2000` for a draw `r ∈ [0, 1)`; for a positive rate
and non-negative population the value lies in the closed interval
`[population*1000/rate, population*2000/rate]` (the lower bound is attained
at draw `0`, both bounds coincide at population `0`); a null or zero rate
yields `null`. -/
theorem claim_C7_amended (pop : Int) (rate r : ℚ) (hrate : rate ≠ 0)
    (hr0 : 0 ≤ r) (hr1 : r < 1) :
    calculate_estimated_gdp (some pop) (some rate) r =
      .ok (some ((pop * uniform 1000 2000 r) / rate)) ∧
    1000 ≤ uniform 1000 2000 r ∧ uniform 1000 2000 r < 2000 ∧
    (0 < rate → 0 ≤ pop →
      (pop : ℚ) * 1000 / rate ≤ (pop * uniform 1000 2000 r) / rate ∧
      ((pop : ℚ) * uniform 1000 2000 r) / rate ≤ pop * 2000 / rate) ∧
    calculate_estimated_gdp (some pop) none r = .ok none ∧
    calculate_estimated_gdp (some pop) (some 0) r = .ok none := by
  have hm0 : (1000 : ℚ) ≤ uniform 1000 2000 r := by
    simp only [uniform]
    nlinarith
  have hm1 : uniform 1000 2000 r < 2000 := by
    simp only [uniform]
    nlinarith
  refine ⟨by simp [calculate_estimated_gdp, hrate], hm0, hm1, ?_, by
    simp [calculate_estimated_gdp], by simp [calculate_estimated_gdp]⟩
  intro hpos hpop
  have hpq : (0 : ℚ) ≤ (pop : ℚ) := by exact_mod_cast hpop
  constructor
  · exact div_le_div_of_nonneg_right (by nlinarith) hpos.le
  · exact div_le_div_of_nonneg_right (by nlinarith) hpos.le

/-- Witness for the amended C7 at population `3`, rate `2`, draw `1/2`. -/
theorem claim_C7_amended_witness :
    (2 : ℚ) ≠ 0 ∧ (0 : ℚ) ≤ 1 / 2 ∧ (1 / 2 : ℚ) < 1 ∧
    (calculate_estimated_gdp (some 3) (some 2) (1 / 2) =
        .ok (some ((3 * uniform 1000 2000 (1 / 2)) / 2)) ∧
      1000 ≤ uniform 1000 2000 (1 / 2) ∧ uniform 1000 2000 (1 / 2) < 2000 ∧
      (0 < (2 : ℚ) → 0 ≤ (3 : Int) →
        ((3 : Int) : ℚ) * 1000 / 2 ≤ (3 * uniform 1000 2000 (1 / 2)) / 2 ∧
        (((3 : Int) : ℚ) * uniform 1000 2000 (1 / 2)) / 2 ≤ 3 * 2000 / 2) ∧
      calculate_estimated_gdp (some 3) none (1 / 2) = .ok none ∧
      calculate_estimated_gdp (some 3) (some 0) (1 / 2) = .ok none) :=
  ⟨by norm_num, by norm_num, by norm_num,
   claim_C7_amended 3 2 (1 / 2) (by norm_num) (by norm_num) (by norm_num)⟩

/-! ## Claims C9 and C10: degenerate currency entries and zero rates -/

/-- A dict without a `"code"` key yields `None` from `.get("code")`. -/
theorem dictGet_of_not_mem (fields : List (String × Option String))
    (h : "code" ∉ fields.map Prod.fst) : dictGet fields "code" = none := by
  induction fields with
  | nil => rfl
  | cons kv rest ih =>
    simp only [List.map_cons, List.mem_cons] at h
    push_neg at h
    rw [dictGet, if_neg (by simpa using fun hh => h.1 hh.symm)]
    exact ih h.2

/-- C9: a record whose currency list starts with an element that is neither
a dict containing a `"code"` key nor a string is transformed exactly like a
record with no currency at all: `currency_code` and `exchange_rate` are
null and `estimated_gdp` is forced to `0.0`. -/
theorem claim_C9_malformed_first_currency (cd : RawCountry) (rates : RateTable)
    (r : ℚ) (e : CurrencyEntry) (rest : List CurrencyEntry)
    (hcur : cd.currencies = e :: rest)
    (hshape : e = .other ∨
      ∃ fields, e = .obj fields ∧ "code" ∉ fields.map Prod.fst) :
    process_country_data cd rates r =
      process_country_data { cd with currencies := [] } rates r ∧
    ∃ pd, process_country_data cd rates r = .ok pd ∧
      pd.currency_code = none ∧ pd.exchange_rate = none ∧
      pd.estimated_gdp = some 0 := by
  have hx : extract_currency_code cd.currencies = none := by
    rw [hcur]
    rcases hshape with h | ⟨fields, h, hmem⟩
    · rw [h]
      rfl
    · rw [h]
      exact dictGet_of_not_mem fields hmem
  have hx0 : extract_currency_code ({ cd with currencies := [] } : RawCountry).currencies =
      none := rfl
  rw [process_country_data_noCode cd rates r hx,
      process_country_data_noCode _ rates r hx0]
  exact ⟨rfl, _, rfl, rfl, rfl, rfl⟩

/-- Witness for C9: a number-like first currency element and a code-less
dict element both produce the no-currency outcome. -/
theorem claim_C9_malformed_first_currency_witness :
    (∃ pd, process_country_data
        ⟨some "Xanadu", none, none, some (some 7), none, [.other]⟩ [] 0 =
          .ok pd ∧
      pd.currency_code = none ∧ pd.exchange_rate = none ∧
      pd.estimated_gdp = some 0) ∧
    (∃ pd, process_country_data
        ⟨some "Erewhon", none, none, some (some 9), none,
          [.obj [("symbol", some "$")]]⟩ [] 0 = .ok pd ∧
      pd.currency_code = none ∧ pd.exchange_rate = none ∧
      pd.estimated_gdp = some 0) :=
  ⟨(claim_C9_malformed_first_currency
      ⟨some "Xanadu", none, none, some (some 7), none, [.other]⟩ [] 0 .other []
      rfl (Or.inl rfl)).2,
   (claim_C9_malformed_first_currency
      ⟨some "Erewhon", none, none, some (some 9), none,
        [.obj [("symbol", some "$")]]⟩ [] 0 (.obj [("symbol", some "$")]) []
      rfl (Or.inr ⟨[("symbol", some "$")], rfl, by decide⟩)).2⟩

/-- C10: a record whose extracted code maps to a rate of exactly `0` in the
table is persisted with a null `exchange_rate` (the loop's truthiness check
drops the zero rate) and a null `estimated_gdp`; any row the loop step adds
or rewrites for such a record carries those nulls. -/
theorem claim_C10_zero_rate_nulled (cd : RawCountry) (rates : RateTable) (r : ℚ)
    (c : String) (hc : extract_currency_code cd.currencies = some c)
    (hr : ratesGet rates c = some 0) :
    (∃ pd, refreshProcessed cd rates r = .ok pd ∧
      pd.exchange_rate = none ∧ pd.estimated_gdp = none) ∧
    ∀ store rec, rec ∈ (refreshStep rates r store cd).1 → rec ∉ store →
      rec.exchange_rate = none ∧ rec.estimated_gdp = none := by
  have hpd : refreshProcessed cd rates r =
      .ok ⟨cd.name, cd.capital, cd.region, pyPopulation cd, some c, none, none,
           cd.flag⟩ := by
    rw [refreshProcessed, process_country_data_zeroRate cd rates r c hc hr]
    simp only [hc, rateOverride, hr]
    split
    · rfl
    · simp
  refine ⟨⟨_, hpd, rfl, rfl⟩, ?_⟩
  intro store rec hmem hnot
  rw [refreshStep, hpd] at hmem
  rcases hn : cd.name with _ | nm
  · simp only [hn] at hmem
    exact absurd hmem hnot
  · rcases hp : pyPopulation cd with _ | pop
    · simp only [hn, hp] at hmem
      exact absurd hmem hnot
    · simp only [hn, hp] at hmem
      by_cases hnm : nm = ""
      · rw [if_pos hnm] at hmem
        exact absurd hmem hnot
      · rw [if_neg hnm] at hmem
        rcases hidx : idxLow (lowKey nm) (lowNames store) with _ | j
        · rw [hidx] at hmem
          rcases List.mem_append.mp hmem with h | h
          · exact absurd h hnot
          · rw [List.mem_singleton.mp h]
            exact ⟨rfl, rfl⟩
        · rw [hidx] at hmem
          rcases List.mem_or_eq_of_mem_set hmem with h | h
          · exact absurd h hnot
          · rw [h]
            exact ⟨rfl, rfl⟩

/-- Witness for C10: currency `"ZZZ"` with table rate `0` yields null
persisted rate and GDP. -/
theorem claim_C10_zero_rate_nulled_witness :
    ∃ pd, refreshProcessed
        ⟨some "Zubrowka", none, none, some (some 11), none, [.str "ZZZ"]⟩
        [("ZZZ", 0)] 0 = .ok pd ∧
      pd.exchange_rate = none ∧ pd.estimated_gdp = none :=
  (claim_C10_zero_rate_nulled
    ⟨some "Zubrowka", none, none, some (some 11), none, [.str "ZZZ"]⟩
    [("ZZZ", 0)] 0 "ZZZ" rfl (by simp [ratesGet])).1

/-! ## Case analysis of the loop's per-record data -/

/-- `refreshProcessed` with no extractable code. -/
theorem refreshProcessed_noCode (cd : RawCountry) (rates : RateTable) (r : ℚ)
    (h : extract_currency_code cd.currencies = none) :
    refreshProcessed cd rates r =
      .ok ⟨cd.name, cd.capital, cd.region, pyPopulation cd, none, none, some 0,
           cd.flag⟩ := by
  rw [refreshProcessed, process_country_data_noCode cd rates r h]
  simp [h, rateOverride]

/-- `refreshProcessed` with a code absent from the rate table. -/
theorem refreshProcessed_noRate (cd : RawCountry) (rates : RateTable) (r : ℚ)
    (c : String) (hc : extract_currency_code cd.currencies = some c)
    (hr : ratesGet rates c = none) :
    refreshProcessed cd rates r =
      .ok ⟨cd.name, cd.capital, cd.region, pyPopulation cd, some c, none, none,
           cd.flag⟩ := by
  rw [refreshProcessed, process_country_data_noRate cd rates r c hc hr]
  simp [hc, rateOverride, hr]

/-- `refreshProcessed` with a zero table rate: the loop's truthiness check
drops the zero rate to `None`. -/
theorem refreshProcessed_zeroRate (cd : RawCountry) (rates : RateTable) (r : ℚ)
    (c : String) (hc : extract_currency_code cd.currencies = some c)
    (hr : ratesGet rates c = some 0) :
    refreshProcessed cd rates r =
      .ok ⟨cd.name, cd.capital, cd.region, pyPopulation cd, some c, none, none,
           cd.flag⟩ := by
  rw [refreshProcessed, process_country_data_zeroRate cd rates r c hc hr]
  simp [hc, rateOverride, hr]

/-- `refreshProcessed` propagates the `TypeError` raised for an explicitly
`null` population with a known nonzero rate. -/
theorem refreshProcessed_nullPop (cd : RawCountry) (rates : RateTable) (r : ℚ)
    (c : String) (v : ℚ) (hc : extract_currency_code cd.currencies = some c)
    (hr : ratesGet rates c = some v) (hv : v ≠ 0)
    (hp : pyPopulation cd = none) :
    refreshProcessed cd rates r = .error .typeError := by
  rw [refreshProcessed, process_country_data_nullPop cd rates r c v hc hr hv hp]

/-- `refreshProcessed` with a nonzero table rate and known population: the
persisted rate is the table rate unless the code is the falsy empty
string. -/
theorem refreshProcessed_computed (cd : RawCountry) (rates : RateTable) (r : ℚ)
    (c : String) (v : ℚ) (p : Int) (hc : extract_currency_code cd.currencies = some c)
    (hr : ratesGet rates c = some v) (hv : v ≠ 0)
    (hp : pyPopulation cd = some p) :
    refreshProcessed cd rates r =
      .ok ⟨cd.name, cd.capital, cd.region, some p, some c,
           (if c = "" then none else some v),
           some ((p * uniform 1000 2000 r) / v), cd.flag⟩ := by
  rw [refreshProcessed, process_country_data_computed cd rates r c v p hc hr hv hp]
  simp [hc, rateOverride, hr, hv]

/-- Whatever path produced it, the loop's processed data keeps the raw
record's `name` and its defaulted `population`. -/
theorem refreshProcessed_ok_fields (cd : RawCountry) (rates : RateTable) (r : ℚ)
    (pd : ProcessedCountry) (h : refreshProcessed cd rates r = .ok pd) :
    pd.name = cd.name ∧ pd.population = pyPopulation cd := by
  rcases hx : extract_currency_code cd.currencies with _ | c
  · rw [refreshProcessed_noCode cd rates r hx] at h
    cases h
    exact ⟨rfl, rfl⟩
  · rcases hr : ratesGet rates c with _ | v
    · rw [refreshProcessed_noRate cd rates r c hx hr] at h
      cases h
      exact ⟨rfl, rfl⟩
    · by_cases hv : v = 0
      · subst hv
        rw [refreshProcessed_zeroRate cd rates r c hx hr] at h
        cases h
        exact ⟨rfl, rfl⟩
      · rcases hp : pyPopulation cd with _ | p
        · rw [refreshProcessed_nullPop cd rates r c v hx hr hv hp] at h
          cases h
        · rw [refreshProcessed_computed cd rates r c v p hx hr hv hp] at h
          cases h
          exact ⟨rfl, rfl⟩

/-- A record whose (defaulted) population is known never raises while being
processed. -/
theorem refreshProcessed_ok_of_pop (cd : RawCountry) (rates : RateTable) (r : ℚ)
    (pop : Int) (hp : pyPopulation cd = some pop) :
    ∃ pd, refreshProcessed cd rates r = .ok pd := by
  rcases hx : extract_currency_code cd.currencies with _ | c
  · exact ⟨_, refreshProcessed_noCode cd rates r hx⟩
  · rcases hr : ratesGet rates c with _ | v
    · exact ⟨_, refreshProcessed_noRate cd rates r c hx hr⟩
    · by_cases hv : v = 0
      · subst hv
        exact ⟨_, refreshProcessed_zeroRate cd rates r c hx hr⟩
      · exact ⟨_, refreshProcessed_computed cd rates r c v pop hx hr hv hp⟩

/-- A record failing validation (empty or missing `name`, or explicitly
`null` population) is skipped by the loop: the store is untouched and
neither counter moves. -/
theorem refreshStep_skip (rates : RateTable) (r : ℚ) (store : List StoredCountry)
    (cd : RawCountry) (h : validB cd = false) :
    refreshStep rates r store cd = (store, 0, 0) := by
  rcases hP : refreshProcessed cd rates r with e | pd
  · simp [refreshStep, hP]
  · obtain ⟨hn, hp⟩ := refreshProcessed_ok_fields cd rates r pd hP
    simp only [refreshStep, hP]
    rw [hn, hp]
    rcases hname : cd.name with _ | nm
    · rcases hpop : pyPopulation cd with _ | pop <;> rfl
    · rcases hpop : pyPopulation cd with _ | pop
      · rfl
      · simp only [validB, hname, hpop, Option.isSome_some, Bool.and_true,
          Bool.not_eq_false'] at h
        have hnm : nm = "" := by simpa using h
        simp [hnm]

/-- A record passing validation is processed without error and either
updates the first case-insensitive name match or inserts a new row. -/
theorem refreshStep_valid (rates : RateTable) (r : ℚ) (store : List StoredCountry)
    (cd : RawCountry) (h : validB cd = true) :
    ∃ nm pop pd, cd.name = some nm ∧ nm ≠ "" ∧ pyPopulation cd = some pop ∧
      refreshProcessed cd rates r = .ok pd ∧ pd.name = some nm ∧
      pd.population = some pop ∧
      refreshStep rates r store cd =
        (match idxLow (lowKey nm) (lowNames store) with
         | some j => (store.set j (toStored nm pop pd), 1, 0)
         | none => (store ++ [toStored nm pop pd], 0, 1)) := by
  rcases hname : cd.name with _ | nm
  · rw [validB, hname] at h
    simp at h
  · rcases hpop : pyPopulation cd with _ | pop
    · rw [validB, hpop] at h
      simp at h
    · have hnm : nm ≠ "" := by
        rw [validB, hname, hpop] at h
        simpa using h
      obtain ⟨pd, hP⟩ := refreshProcessed_ok_of_pop cd rates r pop hpop
      obtain ⟨hn', hp'⟩ := refreshProcessed_ok_fields cd rates r pd hP
      refine ⟨nm, pop, pd, rfl, hnm, rfl, hP, ?_, ?_, ?_⟩
      · rw [hn', hname]
      · rw [hp', hpop]
      · simp only [refreshStep, hP, hn', hp', hname, hpop]
        rw [if_neg hnm]

/-! ## Properties of the first-match index -/

/-- A found index is in range and points at the matched name. -/
theorem idxLow_some (low : List Char) :
    ∀ (ns : List (List Char)) (j : Nat), idxLow low ns = some j →
      j < ns.length ∧ ns.get? j = some low := by
  intro ns
  induction ns with
  | nil => intro j h; cases h
  | cons n rest ih =>
    intro j h
    rw [idxLow] at h
    by_cases hn : n == low
    · rw [if_pos hn] at h
      cases h
      have hnl : n = low := by simpa using hn
      exact ⟨Nat.succ_pos _, by simp [hnl]⟩
    · rw [if_neg hn] at h
      rcases hrec : idxLow low rest with _ | j'
      · rw [hrec] at h
        cases h
      · rw [hrec] at h
        cases h
        obtain ⟨h1, h2⟩ := ih j' hrec
        exact ⟨Nat.succ_lt_succ h1, h2⟩

/-- No index is found exactly when the name is absent. -/
theorem idxLow_none (low : List Char) :
    ∀ ns : List (List Char), idxLow low ns = none ↔ low ∉ ns := by
  intro ns
  induction ns with
  | nil => simp [idxLow]
  | cons n rest ih =>
    rw [idxLow]
    by_cases hn : n == low
    · simp only [if_pos hn]
      have : n = low := by simpa using hn
      simp [this]
    · simp only [if_neg hn, List.mem_cons]
      have hne : ¬ low = n := by
        intro h
        exact hn (by simp [h])
      constructor
      · intro h
        rcases hrec : idxLow low rest with _ | j'
        · intro hor
          rcases hor with h1 | h2
          · exact hne h1
          · exact (ih.mp hrec) h2
        · rw [hrec] at h
          cases h
      · intro h
        rcases hrec : idxLow low rest with _ | j'
        · rfl
        · have hnone := ih.mpr (fun hm => h (Or.inr hm))
          rw [hrec] at hnone
          cases hnone

/-- A present name has a first-match index. -/
theorem idxLow_isSome (low : List Char) (ns : List (List Char))
    (h : low ∈ ns) : ∃ j, idxLow low ns = some j := by
  rcases hr : idxLow low ns with _ | j
  · exact absurd ((idxLow_none low ns).mp hr) (by simpa using h)
  · exact ⟨j, rfl⟩

/-- First-match search in a prefix is preserved by appending. -/
theorem idxLow_append_of_some (low : List Char) :
    ∀ (ns ms : List (List Char)) (j : Nat), idxLow low ns = some j →
      idxLow low (ns ++ ms) = some j := by
  intro ns
  induction ns with
  | nil => intro ms j h; cases h
  | cons n rest ih =>
    intro ms j h
    rw [idxLow] at h
    rw [List.cons_append, idxLow]
    by_cases hn : n == low
    · rw [if_pos hn] at h ⊢
      exact h
    · rw [if_neg hn] at h ⊢
      rcases hrec : idxLow low rest with _ | j'
      · rw [hrec] at h
        cases h
      · rw [hrec] at h
        rw [ih ms j' hrec]
        exact h

/-- First-match search past an unmatched prefix lands in the suffix. -/
theorem idxLow_append_of_none (low : List Char) :
    ∀ (ns ms : List (List Char)), idxLow low ns = none →
      idxLow low (ns ++ ms) = (idxLow low ms).map (· + ns.length) := by
  intro ns
  induction ns with
  | nil =>
    intro ms _
    simp
  | cons n rest ih =>
    intro ms h
    rw [idxLow] at h
    rw [List.cons_append, idxLow]
    by_cases hn : n == low
    · rw [if_pos hn] at h
      cases h
    · rw [if_neg hn] at h ⊢
      rcases hrec : idxLow low rest with _ | j'
      · rw [ih ms hrec]
        rcases idxLow low ms with _ | k
        · rfl
        · simp only [Option.map_map, Option.map_some']
          congr 1
      · rw [hrec] at h
        cases h

/-- Setting an index to the value it already holds is the identity. -/
theorem set_get?_self {α : Type} :
    ∀ (l : List α) (j : Nat) (v : α), l.get? j = some v → l.set j v = l := by
  intro l
  induction l with
  | nil => intro j v h; cases h
  | cons a rest ih =>
    intro j v h
    cases j with
    | zero =>
      cases h
      rfl
    | succ j' =>
      have h' : rest.get? j' = some v := by simpa using h
      show a :: rest.set j' v = a :: rest
      rw [ih j' v h']

/-! ## Effect of a loop step on the stored names and counters -/

/-- One step either leaves the lowercased name list unchanged (skip or
in-place update) or appends the new record's lowercased name (insert of a
name not yet present). -/
theorem refreshStep_lowNames (rates : RateTable) (r : ℚ)
    (store : List StoredCountry) (cd : RawCountry) :
    lowNames (refreshStep rates r store cd).1 = lowNames store ∨
    (validB cd = true ∧ lowKey (nameStr cd) ∉ lowNames store ∧
      lowNames (refreshStep rates r store cd).1 =
        lowNames store ++ [lowKey (nameStr cd)]) := by
  by_cases h : validB cd = true
  · obtain ⟨nm, pop, pd, hname, hnm, hpop, hP, hpdn, hpdp, hstep⟩ :=
      refreshStep_valid rates r store cd h
    have hns : nameStr cd = nm := by rw [nameStr, hname]
    rcases hidx : idxLow (lowKey nm) (lowNames store) with _ | j
    · right
      refine ⟨h, ?_, ?_⟩
      · rw [hns]
        exact (idxLow_none _ _).mp hidx
      · rw [hstep, hidx, hns]
        simp [lowNames, toStored]
    · left
      rw [hstep, hidx]
      simp only [lowNames, List.map_set]
      apply set_get?_self
      have h2 := (idxLow_some _ _ _ hidx).2
      simpa [lowNames, toStored] using h2
  · left
    rw [refreshStep_skip rates r store cd (by simpa using h)]

/-- A step never removes a lowercased name from the store. -/
theorem refreshStep_lowNames_mono (rates : RateTable) (r : ℚ)
    (store : List StoredCountry) (cd : RawCountry) (n : List Char)
    (h : n ∈ lowNames store) : n ∈ lowNames (refreshStep rates r store cd).1 := by
  rcases refreshStep_lowNames rates r store cd with he | ⟨_, _, he⟩ <;>
    rw [he] <;> simp [h]

/-- After its own step, a valid record's lowercased name is in the store. -/
theorem refreshStep_present (rates : RateTable) (r : ℚ)
    (store : List StoredCountry) (cd : RawCountry) (h : validB cd = true) :
    lowKey (nameStr cd) ∈ lowNames (refreshStep rates r store cd).1 := by
  obtain ⟨nm, pop, pd, hname, hnm, hpop, hP, hpdn, hpdp, hstep⟩ :=
    refreshStep_valid rates r store cd h
  have hns : nameStr cd = nm := by rw [nameStr, hname]
  rcases hidx : idxLow (lowKey nm) (lowNames store) with _ | j
  · rw [hstep, hidx, hns]
    simp [lowNames, toStored]
  · rw [hstep, hidx, hns]
    simp only [lowNames, List.map_set]
    have h2 := (idxLow_some _ _ _ hidx).2
    have hset : ((store.map fun c => lowKey c.name).set j
        (lowKey (toStored nm pop pd).name)) = store.map fun c => lowKey c.name := by
      apply set_get?_self
      simpa [lowNames, toStored] using h2
    rw [hset]
    exact List.get?_mem (by simpa [lowNames] using h2)

/-- The loop never removes a lowercased name from the store. -/
theorem refreshLoop_lowNames_mono (rates : RateTable) (rdraw : Nat → ℚ) :
    ∀ (p : List RawCountry) (i : Nat) (store : List StoredCountry) (n : List Char),
      n ∈ lowNames store → n ∈ lowNames (refreshLoop rates rdraw i store p).1 := by
  intro p
  induction p with
  | nil =>
    intro i store n h
    simpa [refreshLoop] using h
  | cons cd rest ih =>
    intro i store n h
    simp only [refreshLoop]
    exact ih (i + 1) _ n (refreshStep_lowNames_mono rates (rdraw i) store cd n h)

/-- Every valid record of the batch has its lowercased name in the final
store. -/
theorem refreshLoop_present (rates : RateTable) (rdraw : Nat → ℚ) :
    ∀ (p : List RawCountry) (i : Nat) (store : List StoredCountry)
      (cd : RawCountry), cd ∈ p → validB cd = true →
      lowKey (nameStr cd) ∈ lowNames (refreshLoop rates rdraw i store p).1 := by
  intro p
  induction p with
  | nil =>
    intro i store cd h
    simp at h
  | cons c0 rest ih =>
    intro i store cd hmem hv
    simp only [refreshLoop]
    rcases List.mem_cons.mp hmem with he | hm
    · subst he
      exact refreshLoop_lowNames_mono rates rdraw rest (i + 1) _ _
        (refreshStep_present rates (rdraw i) store cd hv)
    · exact ih (i + 1) _ cd hm hv

/-- A step moves exactly one counter for a valid record, none otherwise. -/
theorem refreshStep_count_sum (rates : RateTable) (r : ℚ)
    (store : List StoredCountry) (cd : RawCountry) :
    (refreshStep rates r store cd).2.1 + (refreshStep rates r store cd).2.2 =
      if validB cd = true then 1 else 0 := by
  by_cases h : validB cd = true
  · obtain ⟨nm, pop, pd, _, _, _, _, _, _, hstep⟩ :=
      refreshStep_valid rates r store cd h
    rw [hstep, if_pos h]
    rcases idxLow (lowKey nm) (lowNames store) with _ | j <;> rfl
  · rw [refreshStep_skip rates r store cd (by simpa using h), if_neg h]
    rfl

/-- The loop's update and insert counters sum to the number of records
passing validation. -/
theorem refreshLoop_count_sum (rates : RateTable) (rdraw : Nat → ℚ) :
    ∀ (p : List RawCountry) (i : Nat) (store : List StoredCountry),
      (refreshLoop rates rdraw i store p).2.1 +
        (refreshLoop rates rdraw i store p).2.2 = countValid p := by
  intro p
  induction p with
  | nil => intro i store; rfl
  | cons cd rest ih =>
    intro i store
    simp only [refreshLoop, countValid, List.countP_cons]
    have h1 := refreshStep_count_sum rates (rdraw i) store cd
    have h2 := ih (i + 1) (refreshStep rates (rdraw i) store cd).1
    simp only [countValid] at h2
    by_cases hv : validB cd = true
    · rw [if_pos hv] at h1 ⊢
      omega
    · rw [if_neg hv] at h1 ⊢
      omega

/-! ## Claim C2: which records are skipped -/

/-- C2 fails as stated: a record whose `population` **key is absent** is
persisted, with population defaulted to `0` — here a one-record batch with
no population key inserts one row and reports `inserted = 1`. -/
theorem claim_C2_counterexample :
    refresh_countries [] [⟨some "Atlantis", none, none, none, none, []⟩]
        (fun _ => 0) [] =
      ([⟨"Atlantis", none, none, 0, none, none, some 0, none⟩], 1, 0, 1) := rfl

/-- C2 (amended): a record whose `name` is missing or empty, or whose
`population` is explicitly `null`, is never persisted — its step leaves the
store untouched and moves no counter, the batch continues; the reported
updated + inserted counts equal exactly the number of records passing
validation, and every valid record of the batch ends up in the store (by
lowercased name).  (A record whose population key is merely *absent* is not
skipped: `get("population", 0)` defaults it to `0`.) -/
theorem claim_C2_amended (rates : RateTable) (payload : List RawCountry)
    (rdraw : Nat → ℚ) (store : List StoredCountry) :
    (∀ (cd : RawCountry) (r : ℚ) (store' : List StoredCountry),
      (cd.name = none ∨ cd.name = some "" ∨ cd.population = some none) →
      refreshStep rates r store' cd = (store', 0, 0)) ∧
    (refresh_countries rates payload rdraw store).2.2.1 +
      (refresh_countries rates payload rdraw store).2.2.2 = countValid payload ∧
    (∀ cd, cd ∈ payload → validB cd = true →
      lowKey (nameStr cd) ∈
        lowNames (refresh_countries rates payload rdraw store).1) := by
  refine ⟨?_, ?_, ?_⟩
  · intro cd r store' hbad
    apply refreshStep_skip
    rcases hbad with h | h | h
    · simp [validB, h]
    · simp [validB, h]
    · simp [validB, pyPopulation, h]
  · have h := refreshLoop_count_sum rates rdraw payload 0 store
    simpa [refresh_countries] using h
  · intro cd hm hv
    have h := refreshLoop_present rates rdraw payload 0 store cd hm hv
    simpa [refresh_countries] using h

/-- Witness for the amended C2: a null-population record is skipped while a
valid record in the same batch is persisted and counted. -/
theorem claim_C2_amended_witness :
    refreshStep [] 0 [] ⟨some "Nulland", none, none, some none, none, []⟩ =
      ([], 0, 0) ∧
    (refresh_countries []
        [⟨some "Nulland", none, none, some none, none, []⟩,
         ⟨some "Graustark", none, none, some (some 4), none, []⟩]
        (fun _ => 0) []).2.2.1 +
      (refresh_countries []
        [⟨some "Nulland", none, none, some none, none, []⟩,
         ⟨some "Graustark", none, none, some (some 4), none, []⟩]
        (fun _ => 0) []).2.2.2 =
      countValid
        [⟨some "Nulland", none, none, some none, none, []⟩,
         ⟨some "Graustark", none, none, some (some 4), none, []⟩] :=
  ⟨(claim_C2_amended [] [] (fun _ => 0) []).1
      ⟨some "Nulland", none, none, some none, none, []⟩ 0 []
      (Or.inr (Or.inr rfl)),
   (claim_C2_amended []
      [⟨some "Nulland", none, none, some none, none, []⟩,
       ⟨some "Graustark", none, none, some (some 4), none, []⟩]
      (fun _ => 0) []).2.1⟩

/-! ## Claim C6: one stored row per case-insensitive name -/

/-- A step preserves distinctness of the lowercased stored names. -/
theorem refreshStep_nodup (rates : RateTable) (r : ℚ)
    (store : List StoredCountry) (cd : RawCountry)
    (h : (lowNames store).Nodup) :
    (lowNames (refreshStep rates r store cd).1).Nodup := by
  rcases refreshStep_lowNames rates r store cd with he | ⟨_, hnotin, he⟩
  · rw [he]
    exact h
  · rw [he]
    exact h.append (List.nodup_singleton _)
      (List.disjoint_singleton.mpr hnotin)

/-- The loop preserves distinctness of the lowercased stored names. -/
theorem refreshLoop_nodup (rates : RateTable) (rdraw : Nat → ℚ) :
    ∀ (p : List RawCountry) (i : Nat) (store : List StoredCountry),
      (lowNames store).Nodup →
      (lowNames (refreshLoop rates rdraw i store p).1).Nodup := by
  intro p
  induction p with
  | nil =>
    intro i store h
    simpa [refreshLoop] using h
  | cons cd rest ih =>
    intro i store h
    simp only [refreshLoop]
    exact ih (i + 1) _ (refreshStep_nodup rates (rdraw i) store cd h)

/-- C6: the store keeps exactly one row per case-insensitive name.  A
refresh preserves distinctness of the lowercased stored names, and
refreshing a batch containing a valid record whose name matches a stored
row up to case takes the update path: the store size is unchanged and the
refresh reports `updated = 1, inserted = 0` instead of inserting a
duplicate. -/
theorem claim_C6_case_insensitive_upsert (rates : RateTable) (rdraw : Nat → ℚ)
    (store : List StoredCountry) :
    (∀ payload, (lowNames store).Nodup →
      (lowNames (refresh_countries rates payload rdraw store).1).Nodup) ∧
    (∀ (cd : RawCountry) (nm : String), cd.name = some nm → nm ≠ "" →
      pyPopulation cd ≠ none → lowKey nm ∈ lowNames store →
      (refresh_countries rates [cd] rdraw store).1.length = store.length ∧
      (refresh_countries rates [cd] rdraw store).2.2.1 = 1 ∧
      (refresh_countries rates [cd] rdraw store).2.2.2 = 0) := by
  constructor
  · intro payload h
    have hh := refreshLoop_nodup rates rdraw payload 0 store h
    simpa [refresh_countries] using hh
  · intro cd nm hname hnm hpop hmem
    have hv : validB cd = true := by
      rcases hpq : pyPopulation cd with _ | p
      · exact absurd hpq hpop
      · simp [validB, hname, hnm, hpq]
    obtain ⟨nm', pop, pd, hname', hnm', hpop', hP, hpdn, hpdp, hstep⟩ :=
      refreshStep_valid rates (rdraw 0) store cd hv
    have hnn : nm = nm' := by
      rw [hname] at hname'
      exact Option.some_inj.mp hname'
    rw [hnn] at hmem
    obtain ⟨j, hidx⟩ := idxLow_isSome (lowKey nm') (lowNames store) hmem
    rw [hidx] at hstep
    have hloop : refreshLoop rates rdraw 0 store [cd] =
        (store.set j (toStored nm' pop pd), 1, 0) := by
      simp only [refreshLoop, hstep]
    simp [refresh_countries, hloop]

/-- Witness for C6: a store holding `"Canada"` refreshed with `"CANADA"`
keeps one row and reports one update, no insert; and lowercased-name
distinctness of that store survives the refresh. -/
theorem claim_C6_case_insensitive_upsert_witness :
    ((refresh_countries []
        [⟨some "CANADA", none, none, some (some 20), none, []⟩] (fun _ => 0)
        [⟨"Canada", none, none, 10, none, none, none, none⟩]).1.length =
      [(⟨"Canada", none, none, 10, none, none, none, none⟩ : StoredCountry)].length ∧
      (refresh_countries []
        [⟨some "CANADA", none, none, some (some 20), none, []⟩] (fun _ => 0)
        [⟨"Canada", none, none, 10, none, none, none, none⟩]).2.2.1 = 1 ∧
      (refresh_countries []
        [⟨some "CANADA", none, none, some (some 20), none, []⟩] (fun _ => 0)
        [⟨"Canada", none, none, 10, none, none, none, none⟩]).2.2.2 = 0) ∧
    (lowNames (refresh_countries []
        [⟨some "CANADA", none, none, some (some 20), none, []⟩] (fun _ => 0)
        [⟨"Canada", none, none, 10, none, none, none, none⟩]).1).Nodup :=
  ⟨(claim_C6_case_insensitive_upsert [] (fun _ => 0)
      [⟨"Canada", none, none, 10, none, none, none, none⟩]).2
      ⟨some "CANADA", none, none, some (some 20), none, []⟩ "CANADA" rfl
      (by decide) (by decide) (by decide),
   (claim_C6_case_insensitive_upsert [] (fun _ => 0)
      [⟨"Canada", none, none, 10, none, none, none, none⟩]).1
      [⟨some "CANADA", none, none, some (some 20), none, []⟩] (by decide)⟩

/-! ## The refresh result modulo the randomized field -/

/-- Updating the first-match index with a row of the matched lowercased
name leaves the lowercased name list unchanged. -/
theorem lowNames_set_of_idx (store : List StoredCountry) (j : Nat)
    (v : StoredCountry)
    (hidx : idxLow (lowKey v.name) (lowNames store) = some j) :
    lowNames (store.set j v) = lowNames store := by
  simp only [lowNames, List.map_set]
  apply set_get?_self
  simpa [lowNames] using (idxLow_some _ _ _ hidx).2

/-- Rows built from processed data agreeing outside `estimated_gdp` agree
after erasure. -/
theorem eraseGdp_toStored (nm : String) (pop : Int) (pd pd' : ProcessedCountry)
    (h : erasePd pd = erasePd pd') :
    eraseGdp (toStored nm pop pd) = eraseGdp (toStored nm pop pd') := by
  cases pd
  cases pd'
  simp only [erasePd, ProcessedBase.mk.injEq] at h
  obtain ⟨h1, h2, h3, h4, h5, h6, h7⟩ := h
  simp [toStored, eraseGdp, h2, h3, h5, h6, h7]

/-- Outside `estimated_gdp`, the loop's processed data does not depend on
the random draw (and it raises for one draw iff it raises for any). -/
theorem refreshProcessed_erase_draw (cd : RawCountry) (rates : RateTable)
    (r r' : ℚ) :
    (refreshProcessed cd rates r).map erasePd =
      (refreshProcessed cd rates r').map erasePd := by
  rcases hx : extract_currency_code cd.currencies with _ | c
  · rw [refreshProcessed_noCode cd rates r hx,
       refreshProcessed_noCode cd rates r' hx]
  · rcases hr : ratesGet rates c with _ | v
    · rw [refreshProcessed_noRate cd rates r c hx hr,
         refreshProcessed_noRate cd rates r' c hx hr]
    · by_cases hv : v = 0
      · subst hv
        rw [refreshProcessed_zeroRate cd rates r c hx hr,
           refreshProcessed_zeroRate cd rates r' c hx hr]
      · rcases hp : pyPopulation cd with _ | p
        · rw [refreshProcessed_nullPop cd rates r c v hx hr hv hp,
             refreshProcessed_nullPop cd rates r' c v hx hr hv hp]
        · rw [refreshProcessed_computed cd rates r c v p hx hr hv hp,
             refreshProcessed_computed cd rates r' c v p hx hr hv hp]
          simp [Except.map, erasePd]

/-- Stores equal after erasure have the same lowercased names. -/
theorem lowNames_eq_of_eraseEq (s s' : List StoredCountry)
    (h : s.map eraseGdp = s'.map eraseGdp) : lowNames s = lowNames s' := by
  have h2 : (s.map eraseGdp).map (fun b => lowKey b.name) =
      (s'.map eraseGdp).map (fun b => lowKey b.name) := by rw [h]
  simpa [lowNames, List.map_map, Function.comp, eraseGdp] using h2

/-- One loop step is a bisimulation for equality-after-erasure: erased
stores evolve identically for any draws, and the counters agree. -/
theorem refreshStep_erasedEq (rates : RateTable) (r r' : ℚ)
    (s s' : List StoredCountry) (cd : RawCountry)
    (h : s.map eraseGdp = s'.map eraseGdp) :
    (refreshStep rates r s cd).1.map eraseGdp =
      (refreshStep rates r' s' cd).1.map eraseGdp ∧
    (refreshStep rates r s cd).2 = (refreshStep rates r' s' cd).2 := by
  by_cases hv : validB cd = true
  · obtain ⟨nm, pop, pd, hname, hnm, hpop, hP, hpdn, hpdp, hstep⟩ :=
      refreshStep_valid rates r s cd hv
    obtain ⟨nm2, pop2, pd2, hname2, hnm2, hpop2, hP2, hpdn2, hpdp2, hstep2⟩ :=
      refreshStep_valid rates r' s' cd hv
    have hnmeq : nm2 = nm := by
      rw [hname] at hname2
      exact (Option.some_inj.mp hname2).symm
    have hpopeq : pop2 = pop := by
      rw [hpop] at hpop2
      exact (Option.some_inj.mp hpop2).symm
    rw [hnmeq, hpopeq] at hstep2
    have hpdE : erasePd pd = erasePd pd2 := by
      have hh := refreshProcessed_erase_draw cd rates r r'
      rw [hP, hP2] at hh
      simpa [Except.map] using hh
    have hlow : lowNames s = lowNames s' := lowNames_eq_of_eraseEq s s' h
    rw [hstep, hstep2, hlow]
    rcases hidx : idxLow (lowKey nm) (lowNames s') with _ | j
    · constructor
      · simp only [List.map_append, List.map_cons, List.map_nil, h]
        rw [eraseGdp_toStored nm pop pd pd2 hpdE]
      · rfl
    · constructor
      · simp only [List.map_set, h]
        rw [eraseGdp_toStored nm pop pd pd2 hpdE]
      · rfl
  · rw [refreshStep_skip rates r s cd (by simpa using hv),
       refreshStep_skip rates r' s' cd (by simpa using hv)]
    exact ⟨h, rfl⟩

/-- The loop is a bisimulation for equality-after-erasure, for any draw
functions and index offsets: erased final stores and both counters
coincide. -/
theorem refreshLoop_erasedEq (rates : RateTable) (rdraw rdraw' : Nat → ℚ) :
    ∀ (p : List RawCountry) (i i' : Nat) (s s' : List StoredCountry),
      s.map eraseGdp = s'.map eraseGdp →
      (refreshLoop rates rdraw i s p).1.map eraseGdp =
        (refreshLoop rates rdraw' i' s' p).1.map eraseGdp ∧
      (refreshLoop rates rdraw i s p).2 = (refreshLoop rates rdraw' i' s' p).2 := by
  intro p
  induction p with
  | nil =>
    intro i i' s s' h
    exact ⟨h, rfl⟩
  | cons cd rest ih =>
    intro i i' s s' h
    simp only [refreshLoop]
    obtain ⟨h1, h2⟩ := refreshStep_erasedEq rates (rdraw i) (rdraw' i') s s' cd h
    obtain ⟨h3, h4⟩ := ih (i + 1) (i' + 1) _ _ h1
    refine ⟨h3, ?_⟩
    rw [h2, h4]

/-- The loop only appends to the lowercased name list. -/
theorem refreshLoop_lowNames_append (rates : RateTable) (rdraw : Nat → ℚ) :
    ∀ (p : List RawCountry) (i : Nat) (store : List StoredCountry),
      ∃ ns, lowNames (refreshLoop rates rdraw i store p).1 =
        lowNames store ++ ns := by
  intro p
  induction p with
  | nil =>
    intro i store
    exact ⟨[], by simp [refreshLoop]⟩
  | cons cd rest ih =>
    intro i store
    simp only [refreshLoop]
    obtain ⟨ns, hns⟩ := ih (i + 1) (refreshStep rates (rdraw i) store cd).1
    rcases refreshStep_lowNames rates (rdraw i) store cd with he | ⟨_, _, he⟩
    · exact ⟨ns, by rw [hns, he]⟩
    · exact ⟨[lowKey (nameStr cd)] ++ ns, by rw [hns, he, List.append_assoc]⟩

/-- When every valid record's lowercased name is already stored, the loop
only updates: `updated` counts all valid records, nothing is inserted, and
the store keeps its size and name list. -/
theorem refreshLoop_allPresent (rates : RateTable) (rdraw : Nat → ℚ) :
    ∀ (p : List RawCountry) (i : Nat) (store : List StoredCountry),
      (∀ cd, cd ∈ p → validB cd = true →
        lowKey (nameStr cd) ∈ lowNames store) →
      (refreshLoop rates rdraw i store p).2.1 = countValid p ∧
      (refreshLoop rates rdraw i store p).2.2 = 0 ∧
      (refreshLoop rates rdraw i store p).1.length = store.length ∧
      lowNames (refreshLoop rates rdraw i store p).1 = lowNames store := by
  intro p
  induction p with
  | nil =>
    intro i store _
    exact ⟨rfl, rfl, rfl, rfl⟩
  | cons cd rest ih =>
    intro i store h
    simp only [refreshLoop, countValid, List.countP_cons]
    by_cases hv : validB cd = true
    · obtain ⟨nm, pop, pd, hname, hnm, hpop, hP, hpdn, hpdp, hstep⟩ :=
        refreshStep_valid rates (rdraw i) store cd hv
      have hns : nameStr cd = nm := by rw [nameStr, hname]
      have hmem : lowKey nm ∈ lowNames store := by
        have hh := h cd (List.mem_cons_self cd rest) hv
        rwa [hns] at hh
      obtain ⟨j, hidx⟩ := idxLow_isSome _ _ hmem
      rw [hidx] at hstep
      have hstep1 : (refreshStep rates (rdraw i) store cd).1 =
          store.set j (toStored nm pop pd) := by rw [hstep]
      have hstep21 : (refreshStep rates (rdraw i) store cd).2.1 = 1 := by
        rw [hstep]
      have hstep22 : (refreshStep rates (rdraw i) store cd).2.2 = 0 := by
        rw [hstep]
      have hlow : lowNames (store.set j (toStored nm pop pd)) = lowNames store :=
        lowNames_set_of_idx store j _ hidx
      have hrest : ∀ cd', cd' ∈ rest → validB cd' = true →
          lowKey (nameStr cd') ∈ lowNames (store.set j (toStored nm pop pd)) := by
        intro cd' hm hv'
        rw [hlow]
        exact h cd' (List.mem_cons_of_mem cd hm) hv'
      obtain ⟨ih1, ih2, ih3, ih4⟩ := ih (i + 1) _ hrest
      rw [hstep1, hstep21, hstep22, ih1, ih2, ih3, ih4, hlow, if_pos hv,
         List.length_set]
      simp only [countValid]
      exact ⟨by omega, trivial, trivial, trivial⟩
    · have hskip := refreshStep_skip rates (rdraw i) store cd (by simpa using hv)
      have hstep1 : (refreshStep rates (rdraw i) store cd).1 = store := by
        rw [hskip]
      have hstep21 : (refreshStep rates (rdraw i) store cd).2.1 = 0 := by
        rw [hskip]
      have hstep22 : (refreshStep rates (rdraw i) store cd).2.2 = 0 := by
        rw [hskip]
      obtain ⟨ih1, ih2, ih3, ih4⟩ := ih (i + 1) store
        (fun cd' hm hv' => h cd' (List.mem_cons_of_mem cd hm) hv')
      rw [hstep1, hstep21, hstep22, ih1, ih2, ih3, ih4, if_neg hv]
      simp only [countValid]
      exact ⟨by omega, trivial, trivial, trivial⟩

/-- A position no batch record resolves to keeps its row through the
loop. -/
theorem refreshLoop_frame (rates : RateTable) (rdraw : Nat → ℚ) :
    ∀ (p : List RawCountry) (i : Nat) (store : List StoredCountry) (q : Nat),
      q < store.length →
      (∀ cd, cd ∈ p → validB cd = true →
        idxLow (lowKey (nameStr cd)) (lowNames store) ≠ some q) →
      (refreshLoop rates rdraw i store p).1.get? q = store.get? q := by
  intro p
  induction p with
  | nil =>
    intro i store q hq h
    simp [refreshLoop]
  | cons cd rest ih =>
    intro i store q hq h
    simp only [refreshLoop]
    by_cases hv : validB cd = true
    · obtain ⟨nm, pop, pd, hname, hnm, hpop, hP, hpdn, hpdp, hstep⟩ :=
        refreshStep_valid rates (rdraw i) store cd hv
      have hns : nameStr cd = nm := by rw [nameStr, hname]
      have hcd := h cd (List.mem_cons_self cd rest) hv
      rw [hns] at hcd
      rcases hidx : idxLow (lowKey nm) (lowNames store) with _ | j
      · have hstep1 : (refreshStep rates (rdraw i) store cd).1 =
            store ++ [toStored nm pop pd] := by rw [hstep, hidx]
        rw [hstep1]
        have hq' : q < (store ++ [toStored nm pop pd]).length := by
          rw [List.length_append]
          omega
        have hnames : lowNames (store ++ [toStored nm pop pd]) =
            lowNames store ++ [lowKey nm] := by
          simp [lowNames, toStored]
        have hrest : ∀ cd', cd' ∈ rest → validB cd' = true →
            idxLow (lowKey (nameStr cd'))
              (lowNames (store ++ [toStored nm pop pd])) ≠ some q := by
          intro cd' hm hv'
          rw [hnames]
          rcases hpx : idxLow (lowKey (nameStr cd')) (lowNames store) with _ | k
          · rw [idxLow_append_of_none _ _ _ hpx]
            rcases idxLow (lowKey (nameStr cd')) [lowKey nm] with _ | k'
            · simp
            · simp only [Option.map_some']
              intro hEq
              have hkq : k' + (lowNames store).length = q :=
                Option.some_inj.mp hEq
              have hlen : (lowNames store).length = store.length := by
                simp [lowNames]
              omega
          · rw [idxLow_append_of_some _ _ _ _ hpx]
            have hcd' := h cd' (List.mem_cons_of_mem cd hm) hv'
            rw [hpx] at hcd'
            exact hcd'
        rw [ih (i + 1) _ q hq' hrest]
        exact List.get?_append hq
      · have hstep1 : (refreshStep rates (rdraw i) store cd).1 =
            store.set j (toStored nm pop pd) := by rw [hstep, hidx]
        rw [hstep1]
        have hjq : j ≠ q := by
          intro e
          rw [e] at hidx
          exact hcd hidx
        have hlow : lowNames (store.set j (toStored nm pop pd)) =
            lowNames store := lowNames_set_of_idx store j _ hidx
        have hq' : q < (store.set j (toStored nm pop pd)).length := by
          rw [List.length_set]
          exact hq
        have hrest : ∀ cd', cd' ∈ rest → validB cd' = true →
            idxLow (lowKey (nameStr cd'))
              (lowNames (store.set j (toStored nm pop pd))) ≠ some q := by
          intro cd' hm hv'
          rw [hlow]
          exact h cd' (List.mem_cons_of_mem cd hm) hv'
        rw [ih (i + 1) _ q hq' hrest]
        exact List.get?_set_ne _ store hjq
    · rw [refreshStep_skip rates (rdraw i) store cd (by simpa using hv)]
      exact ih (i + 1) store q hq
        (fun cd' hm hv' => h cd' (List.mem_cons_of_mem cd hm) hv')

/-- Two stores with the same lowercased names and size that differ only at
positions some valid batch record resolves to (so the loop overwrites them)
produce identical loop results. -/
theorem refreshLoop_diffWritten (rates : RateTable) (rdraw : Nat → ℚ) :
    ∀ (p : List RawCountry) (i : Nat) (s s' : List StoredCountry),
      lowNames s = lowNames s' → s.length = s'.length →
      (∀ q, q < s.length → s.get? q ≠ s'.get? q →
        ∃ cd, cd ∈ p ∧ validB cd = true ∧
          idxLow (lowKey (nameStr cd)) (lowNames s) = some q) →
      refreshLoop rates rdraw i s p = refreshLoop rates rdraw i s' p := by
  intro p
  induction p with
  | nil =>
    intro i s s' hlow hlen hdiff
    have hss : s = s' := by
      apply List.ext
      intro n
      by_cases hn : n < s.length
      · by_contra hne
        obtain ⟨cd, hm, _, _⟩ := hdiff n hn hne
        exact absurd hm (List.not_mem_nil cd)
      · push_neg at hn
        rw [List.get?_eq_none.mpr hn,
           List.get?_eq_none.mpr (by omega : s'.length ≤ n)]
    rw [hss]
  | cons cd rest ih =>
    intro i s s' hlow hlen hdiff
    by_cases hv : validB cd = true
    · obtain ⟨nm, pop, pd, hname, hnm, hpop, hP, hpdn, hpdp, hstep⟩ :=
        refreshStep_valid rates (rdraw i) s cd hv
      obtain ⟨nm2, pop2, pd2, hname2, hnm2, hpop2, hP2, hpdn2, hpdp2, hstep2⟩ :=
        refreshStep_valid rates (rdraw i) s' cd hv
      have hnme : nm2 = nm := by
        rw [hname] at hname2
        exact (Option.some_inj.mp hname2).symm
      have hpope : pop2 = pop := by
        rw [hpop] at hpop2
        exact (Option.some_inj.mp hpop2).symm
      have hpde : pd2 = pd := by
        rw [hP] at hP2
        have := hP2
        simpa using this.symm
      rw [hnme, hpope, hpde, ← hlow] at hstep2
      have hns : nameStr cd = nm := by rw [nameStr, hname]
      simp only [refreshLoop]
      rcases hidx : idxLow (lowKey nm) (lowNames s) with _ | j
      · rw [hidx] at hstep hstep2
        have hnames : lowNames (s ++ [toStored nm pop pd]) =
            lowNames s ++ [lowKey nm] := by simp [lowNames, toStored]
        have hnames' : lowNames (s' ++ [toStored nm pop pd]) =
            lowNames s' ++ [lowKey nm] := by simp [lowNames, toStored]
        have hlow2 : lowNames (s ++ [toStored nm pop pd]) =
            lowNames (s' ++ [toStored nm pop pd]) := by
          rw [hnames, hnames', hlow]
        have hlen2 : (s ++ [toStored nm pop pd]).length =
            (s' ++ [toStored nm pop pd]).length := by
          simp [hlen]
        have hdiff2 : ∀ q, q < (s ++ [toStored nm pop pd]).length →
            (s ++ [toStored nm pop pd]).get? q ≠
              (s' ++ [toStored nm pop pd]).get? q →
            ∃ cd', cd' ∈ rest ∧ validB cd' = true ∧
              idxLow (lowKey (nameStr cd'))
                (lowNames (s ++ [toStored nm pop pd])) = some q := by
          intro q hq hne
          by_cases hqs : q < s.length
          · rw [List.get?_append hqs, List.get?_append (by omega)] at hne
            obtain ⟨cd', hm, hv', hidx'⟩ := hdiff q hqs hne
            rcases List.mem_cons.mp hm with he | hm'
            · exfalso
              rw [he, hns, hidx] at hidx'
              cases hidx'
            · refine ⟨cd', hm', hv', ?_⟩
              rw [hnames]
              exact idxLow_append_of_some _ _ _ _ hidx'
          · exfalso
            have hq1 : q = s.length := by
              rw [List.length_append] at hq
              simp at hq
              omega
            rw [hq1, List.get?_concat_length, hlen,
               List.get?_concat_length] at hne
            exact hne rfl
        rw [hstep, hstep2, ih (i + 1) _ _ hlow2 hlen2 hdiff2]
      · rw [hidx] at hstep hstep2
        have hjlt : j < s.length := by
          have hh := (idxLow_some _ _ _ hidx).1
          simpa [lowNames] using hh
        have hlowv : lowNames (s.set j (toStored nm pop pd)) = lowNames s :=
          lowNames_set_of_idx s j _ hidx
        have hlowv' : lowNames (s'.set j (toStored nm pop pd)) = lowNames s' :=
          lowNames_set_of_idx s' j _ (by rw [← hlow]; exact hidx)
        have hlow2 : lowNames (s.set j (toStored nm pop pd)) =
            lowNames (s'.set j (toStored nm pop pd)) := by
          rw [hlowv, hlowv', hlow]
        have hlen2 : (s.set j (toStored nm pop pd)).length =
            (s'.set j (toStored nm pop pd)).length := by
          simp [hlen]
        have hdiff2 : ∀ q, q < (s.set j (toStored nm pop pd)).length →
            (s.set j (toStored nm pop pd)).get? q ≠
              (s'.set j (toStored nm pop pd)).get? q →
            ∃ cd', cd' ∈ rest ∧ validB cd' = true ∧
              idxLow (lowKey (nameStr cd'))
                (lowNames (s.set j (toStored nm pop pd))) = some q := by
          intro q hq hne
          rw [List.length_set] at hq
          by_cases hqj : q = j
          · exfalso
            rw [hqj, List.get?_set_eq, List.get?_set_eq,
               List.get?_eq_get hjlt, List.get?_eq_get (hlen ▸ hjlt)] at hne
            exact hne rfl
          · rw [List.get?_set_ne _ s (fun e => hqj e.symm),
               List.get?_set_ne _ s' (fun e => hqj e.symm)] at hne
            obtain ⟨cd', hm, hv', hidx'⟩ := hdiff q hq hne
            rcases List.mem_cons.mp hm with he | hm'
            · exfalso
              rw [he, hns, hidx] at hidx'
              exact hqj (Option.some_inj.mp hidx').symm
            · refine ⟨cd', hm', hv', ?_⟩
              rw [hlowv]
              exact hidx'
        rw [hstep, hstep2, ih (i + 1) _ _ hlow2 hlen2 hdiff2]
    · have hdiff' : ∀ q, q < s.length → s.get? q ≠ s'.get? q →
          ∃ cd', cd' ∈ rest ∧ validB cd' = true ∧
            idxLow (lowKey (nameStr cd')) (lowNames s) = some q := by
        intro q hq hne
        obtain ⟨cd', hm, hv', hidx'⟩ := hdiff q hq hne
        rcases List.mem_cons.mp hm with he | hm'
        · exact absurd (he ▸ hv') hv
        · exact ⟨cd', hm', hv', hidx'⟩
      simp only [refreshLoop]
      rw [refreshStep_skip rates (rdraw i) s cd (by simpa using hv),
         refreshStep_skip rates (rdraw i) s' cd (by simpa using hv),
         ih (i + 1) s s' hlow hlen hdiff']

/-- Replaying the loop on its own result (with the same draws) leaves the
store exactly as it was: every record rewrites the row it already settled
into. -/
theorem refreshLoop_replay (rates : RateTable) (rdraw : Nat → ℚ) :
    ∀ (p : List RawCountry) (i : Nat) (store : List StoredCountry),
      (refreshLoop rates rdraw i (refreshLoop rates rdraw i store p).1 p).1 =
        (refreshLoop rates rdraw i store p).1 := by
  intro p
  induction p with
  | nil => intro i store; rfl
  | cons cd rest ih =>
    intro i store
    simp only [refreshLoop]
    set s₁ : List StoredCountry := (refreshStep rates (rdraw i) store cd).1
      with hs₁
    set t : List StoredCountry := (refreshLoop rates rdraw (i + 1) s₁ rest).1
      with ht
    have hIH : (refreshLoop rates rdraw (i + 1) t rest).1 = t := by
      rw [ht]
      exact ih (i + 1) s₁
    by_cases hv : validB cd = true
    · obtain ⟨nm, pop, pd, hname, hnm, hpop, hP, hpdn, hpdp, hstepT⟩ :=
        refreshStep_valid rates (rdraw i) t cd hv
      obtain ⟨nm2, pop2, pd2, hname2, hnm2, hpop2, hP2, hpdn2, hpdp2, hstepS⟩ :=
        refreshStep_valid rates (rdraw i) store cd hv
      have hnme : nm2 = nm := by
        rw [hname] at hname2
        exact (Option.some_inj.mp hname2).symm
      have hpope : pop2 = pop := by
        rw [hpop] at hpop2
        exact (Option.some_inj.mp hpop2).symm
      have hpde : pd2 = pd := by
        rw [hP] at hP2
        simpa using hP2.symm
      rw [hnme, hpope, hpde] at hstepS
      have hns : nameStr cd = nm := by rw [nameStr, hname]
      have hpres : lowKey nm ∈ lowNames s₁ := by
        have hh := refreshStep_present rates (rdraw i) store cd hv
        rw [hns] at hh
        rw [hs₁]
        exact hh
      obtain ⟨ns, hTnames⟩ := refreshLoop_lowNames_append rates rdraw rest
        (i + 1) s₁
      rw [← ht] at hTnames
      have hmemT : lowKey nm ∈ lowNames t := by
        rw [hTnames]
        exact List.mem_append_left _ hpres
      obtain ⟨j, hidxT⟩ := idxLow_isSome _ _ hmemT
      rw [hidxT] at hstepT
      have hstepT1 : (refreshStep rates (rdraw i) t cd).1 =
          t.set j (toStored nm pop pd) := by rw [hstepT]
      rw [hstepT1]
      by_cases hA : ∃ cd', cd' ∈ rest ∧ validB cd' = true ∧
          idxLow (lowKey (nameStr cd')) (lowNames t) = some j
      · have hlow2 : lowNames (t.set j (toStored nm pop pd)) = lowNames t :=
          lowNames_set_of_idx t j _ hidxT
        have hlen2 : (t.set j (toStored nm pop pd)).length = t.length :=
          List.length_set t j _
        have hdiff2 : ∀ q, q < (t.set j (toStored nm pop pd)).length →
            (t.set j (toStored nm pop pd)).get? q ≠ t.get? q →
            ∃ cd', cd' ∈ rest ∧ validB cd' = true ∧
              idxLow (lowKey (nameStr cd'))
                (lowNames (t.set j (toStored nm pop pd))) = some q := by
          intro q hq hne
          by_cases hqj : q = j
          · obtain ⟨cd', hm, hv', hx⟩ := hA
            rw [hqj]
            exact ⟨cd', hm, hv', by rw [hlow2]; exact hx⟩
          · exact absurd (List.get?_set_ne _ t (fun e => hqj e.symm)) hne
        have hDW := refreshLoop_diffWritten rates rdraw rest (i + 1)
          (t.set j (toStored nm pop pd)) t hlow2 hlen2 hdiff2
        rw [hDW]
        exact hIH
      · push_neg at hA
        have hframe : ∀ (hjlt : j < s₁.length), t.get? j = s₁.get? j := by
          intro hjlt
          rw [ht]
          apply refreshLoop_frame rates rdraw rest (i + 1) s₁ j hjlt
          intro cd' hm hv' hxx
          exact hA cd' hm hv'
            (by rw [hTnames]; exact idxLow_append_of_some _ _ _ _ hxx)
        rcases hidxS : idxLow (lowKey nm) (lowNames store) with _ | j₀
        · rw [hidxS] at hstepS
          have hs1 : s₁ = store ++ [toStored nm pop pd] := by
            rw [hs₁, hstepS]
          have hnames1 : lowNames s₁ = lowNames store ++ [lowKey nm] := by
            rw [hs1]
            simp [lowNames, toStored]
          have hidx1 : idxLow (lowKey nm) (lowNames s₁) =
              some store.length := by
            rw [hnames1, idxLow_append_of_none _ _ _ hidxS]
            simp [idxLow, lowNames]
          have hidxT2 : idxLow (lowKey nm) (lowNames t) =
              some store.length := by
            rw [hTnames]
            exact idxLow_append_of_some _ _ _ _ hidx1
          have hjL : j = store.length :=
            Option.some_inj.mp (hidxT.symm.trans hidxT2)
          have hjlt : j < s₁.length := by
            rw [hs1, List.length_append, hjL]
            simp
          have hgv : s₁.get? j = some (toStored nm pop pd) := by
            rw [hs1, hjL]
            exact List.get?_concat_length store _
          have hset : t.set j (toStored nm pop pd) = t :=
            set_get?_self t j _ ((hframe hjlt).trans hgv)
          rw [hset]
          exact hIH
        · rw [hidxS] at hstepS
          have hs1 : s₁ = store.set j₀ (toStored nm pop pd) := by
            rw [hs₁, hstepS]
          have hnames1 : lowNames s₁ = lowNames store := by
            rw [hs1]
            exact lowNames_set_of_idx store j₀ _ hidxS
          have hidx1 : idxLow (lowKey nm) (lowNames s₁) = some j₀ := by
            rw [hnames1]
            exact hidxS
          have hidxT2 : idxLow (lowKey nm) (lowNames t) = some j₀ := by
            rw [hTnames]
            exact idxLow_append_of_some _ _ _ _ hidx1
          have hjL : j = j₀ := Option.some_inj.mp (hidxT.symm.trans hidxT2)
          have hj₀lt : j₀ < store.length := by
            have hh := (idxLow_some _ _ _ hidxS).1
            simpa [lowNames] using hh
          have hjlt : j < s₁.length := by
            rw [hs1, List.length_set, hjL]
            exact hj₀lt
          have hgv : s₁.get? j = some (toStored nm pop pd) := by
            rw [hs1, hjL, List.get?_set_eq, List.get?_eq_get hj₀lt]
            rfl
          have hset : t.set j (toStored nm pop pd) = t :=
            set_get?_self t j _ ((hframe hjlt).trans hgv)
          rw [hset]
          exact hIH
    · rw [refreshStep_skip rates (rdraw i) t cd (by simpa using hv)]
      exact hIH

/-- C5: refreshing twice with the same fixed upstream payloads (for any
random draws in each run) leaves the total stored count unchanged after the
second run; the second run reports `inserted = 0` and classifies every
valid record as updated (`updated` = number of valid records); and the two
resulting stores agree everywhere except possibly in the randomized
`estimated_gdp` fields. -/
theorem claim_C5_refresh_idempotent (rates : RateTable)
    (payload : List RawCountry) (r₁ r₂ : Nat → ℚ)
    (store₀ : List StoredCountry) :
    let R₁ := refresh_countries rates payload r₁ store₀
    let R₂ := refresh_countries rates payload r₂ R₁.1
    R₂.2.1 = R₁.2.1 ∧
    R₂.1.length = R₁.1.length ∧
    R₂.2.2.2 = 0 ∧
    R₂.2.2.1 = countValid payload ∧
    R₂.1.map eraseGdp = R₁.1.map eraseGdp := by
  intro R₁ R₂
  have hR1 : R₁.1 = (refreshLoop rates r₁ 0 store₀ payload).1 := rfl
  have hR2 : R₂.1 = (refreshLoop rates r₂ 0 R₁.1 payload).1 := rfl
  have hs2e : R₂.1.map eraseGdp = R₁.1.map eraseGdp := by
    rw [hR2]
    have h1 := (refreshLoop_erasedEq rates r₂ r₁ payload 0 0 R₁.1 R₁.1 rfl).1
    rw [h1]
    have h2 : (refreshLoop rates r₁ 0 R₁.1 payload).1 = R₁.1 :=
      refreshLoop_replay rates r₁ payload 0 store₀
    rw [h2]
  have hlen : R₂.1.length = R₁.1.length := by
    have hh := congrArg List.length hs2e
    simpa using hh
  have hpres : ∀ cd, cd ∈ payload → validB cd = true →
      lowKey (nameStr cd) ∈ lowNames R₁.1 :=
    fun cd hm hv => refreshLoop_present rates r₁ payload 0 store₀ cd hm hv
  obtain ⟨hu, hi, _, _⟩ :=
    refreshLoop_allPresent rates r₂ payload 0 R₁.1 hpres
  exact ⟨hlen, hlen, hi, hu, hs2e⟩

/-! ## Claim C3: the sort fallback of the query service -/

/-- C3 fails as stated: for a store `["B", "A"]` and the unrecognized sort
value `"bogus"`, the list operation returns the rows in store order —
**not** ordered by name ascending — because the source's `else` (default
`name_asc`) branch belongs to `if sort:` and is not reached for a truthy
unrecognized value, so no `ORDER BY` is applied. -/
theorem claim_C3_counterexample :
    get_countries
        [⟨"B", none, none, 1, none, none, none, none⟩,
         ⟨"A", none, none, 2, none, none, none, none⟩] none none
        (some "bogus") =
      [⟨"B", none, none, 1, none, none, none, none⟩,
       ⟨"A", none, none, 2, none, none, none, none⟩] ∧
    ¬ List.Sorted (fun a b : StoredCountry => nameAscB a b = true)
      (get_countries
        [⟨"B", none, none, 1, none, none, none, none⟩,
         ⟨"A", none, none, 2, none, none, none, none⟩] none none
        (some "bogus")) := by
  refine ⟨rfl, ?_⟩
  intro hs
  rw [show get_countries
      [⟨"B", none, none, 1, none, none, none, none⟩,
       ⟨"A", none, none, 2, none, none, none, none⟩] none none
      (some "bogus") =
    [⟨"B", none, none, 1, none, none, none, none⟩,
     ⟨"A", none, none, 2, none, none, none, none⟩] from rfl] at hs
  have hba := (List.sorted_cons.mp hs).1
    ⟨"A", none, none, 2, none, none, none, none⟩ (by simp)
  exact absurd hba (by decide)

/-- C3 (amended): an **absent** (or falsy empty-string) sort parameter
yields the default name-ascending order; a non-empty *unrecognized* sort
value applies no ordering at all — the filtered rows come back in store
order. -/
theorem claim_C3_amended (store : List StoredCountry)
    (region currency : Option String) :
    List.Sorted (fun a b : StoredCountry => nameAscB a b = true)
      (get_countries store region currency none) ∧
    get_countries store region currency (some "") =
      get_countries store region currency none ∧
    (∀ srt, srt ≠ "" →
      pyLower srt ∉ (["gdp_desc", "gdp_asc", "population_desc",
        "population_asc", "name_asc", "name_desc"] : List String) →
      get_countries store region currency (some srt) =
        filterCountries store region currency) := by
  refine ⟨?_, rfl, ?_⟩
  · exact List.sorted_insertionSort _ _
  · intro srt hne hmem
    have hne1 : ¬ ((pyLower srt == "gdp_desc") = true) := by
      simp only [beq_iff_eq]
      intro h
      rw [h] at hmem
      exact hmem (by decide)
    have hne2 : ¬ ((pyLower srt == "gdp_asc") = true) := by
      simp only [beq_iff_eq]
      intro h
      rw [h] at hmem
      exact hmem (by decide)
    have hne3 : ¬ ((pyLower srt == "population_desc") = true) := by
      simp only [beq_iff_eq]
      intro h
      rw [h] at hmem
      exact hmem (by decide)
    have hne4 : ¬ ((pyLower srt == "population_asc") = true) := by
      simp only [beq_iff_eq]
      intro h
      rw [h] at hmem
      exact hmem (by decide)
    have hne5 : ¬ ((pyLower srt == "name_asc") = true) := by
      simp only [beq_iff_eq]
      intro h
      rw [h] at hmem
      exact hmem (by decide)
    have hne6 : ¬ ((pyLower srt == "name_desc") = true) := by
      simp only [beq_iff_eq]
      intro h
      rw [h] at hmem
      exact hmem (by decide)
    simp only [get_countries]
    rw [if_neg hne, if_neg hne1, if_neg hne2, if_neg hne3, if_neg hne4,
       if_neg hne5, if_neg hne6]

/-- Witness for the amended C3 at a concrete store and the unrecognized
sort value `"bogus"`. -/
theorem claim_C3_amended_witness :
    get_countries
        [⟨"Brazil", none, none, 1, none, none, none, none⟩,
         ⟨"Angola", none, none, 2, none, none, none, none⟩] none none
        (some "bogus") =
      filterCountries
        [⟨"Brazil", none, none, 1, none, none, none, none⟩,
         ⟨"Angola", none, none, 2, none, none, none, none⟩] none none :=
  (claim_C3_amended
      [⟨"Brazil", none, none, 1, none, none, none, none⟩,
       ⟨"Angola", none, none, 2, none, none, none, none⟩] none none).2.2
    "bogus" (by decide) (by decide)

/-! ## Claim C8: upstream fetch failures abort the refresh -/

/-- A prefix match survives extending the scanned list on the right. -/
theorem startsWithChars_extend :
    ∀ (sub s1 s : List Char), startsWithChars s1 sub = true →
      startsWithChars (s1 ++ s) sub = true := by
  intro sub
  induction sub with
  | nil =>
    intro s1 s _
    have hx : ∀ x : List Char, startsWithChars x [] = true := fun x => by
      cases x <;> rfl
    exact hx _
  | cons d ds ih =>
    intro s1 s h
    cases s1 with
    | nil => cases h
    | cons c t =>
      rw [startsWithChars] at h
      rw [List.cons_append, startsWithChars]
      rcases Bool.and_eq_true_iff.mp h with ⟨h1, h2⟩
      rw [h1, ih t s h2]
      rfl

/-- A substring occurrence survives extending the scanned list on the
right. -/
theorem containsChars_append_left :
    ∀ (pre s sub : List Char), containsChars pre sub = true →
      containsChars (pre ++ s) sub = true := by
  intro pre
  induction pre with
  | nil =>
    intro s sub h
    rw [containsChars] at h
    cases sub with
    | nil =>
      cases s with
      | nil => rfl
      | cons c t => rw [List.nil_append, containsChars]; rfl
    | cons d ds => cases h
  | cons c t ih =>
    intro s sub h
    rw [containsChars] at h
    rw [List.cons_append, containsChars]
    rcases Bool.or_eq_true_iff.mp h with h1 | h2
    · have hsw := startsWithChars_extend sub (c :: t) s h1
      rw [List.cons_append] at hsw
      rw [hsw]
      rfl
    · rw [ih s sub h2, Bool.or_true]

/-- C8 fails as stated on one point: the route attributes the failure by a
substring test on the raised message, so an exchange-rate HTTP error whose
detail itself contains `"Countries API"` is misattributed — the refresh
aborts with the store unchanged, but the surfaced `503` names the
Countries API although the exchange-rate fetch is what failed. -/
theorem claim_C8_counterexample :
    refresh_countries_route (.ok []) (.error (.httpError "Countries API"))
        (fun _ => 0) [] = ([], .unavailable503 "Countries API") ∧
    ("Countries API" : String) ≠ "Exchange Rate API" := by
  constructor
  · decide
  · decide

/-- C8 (amended): if either upstream fetch fails (timeout or HTTP error), the whole
refresh aborts with the store unchanged — no partial writes — and the
route surfaces a `503` naming the upstream that failed.  (For an
exchange-rate HTTP error the name check is a substring test on the raised
message, so the error detail must not itself contain `"Countries API"`.) -/
theorem claim_C8_upstream_failure_aborts (rdraw : Nat → ℚ)
    (store : List StoredCountry) :
    (∀ (e : CountriesFetchErr) (ratesFetch : Except RatesFetchErr RateTable),
      refresh_countries_route (.error e) ratesFetch rdraw store =
        (store, .unavailable503 "Countries API")) ∧
    (∀ cds : List RawCountry,
      refresh_countries_route (.ok cds) (.error .timedOut) rdraw store =
        (store, .unavailable503 "Exchange Rate API")) ∧
    (∀ (cds : List RawCountry) (d : String),
      pyIn "Countries API"
        ("Could not fetch data from Exchange Rate API: " ++ d) = false →
      refresh_countries_route (.ok cds) (.error (.httpError d)) rdraw store =
        (store, .unavailable503 "Exchange Rate API")) := by
  refine ⟨?_, ?_, ?_⟩
  · intro e rf
    cases e with
    | timedOut =>
      simp +decide [refresh_countries_route, refresh_countries_full,
        refreshErrMessage, countriesErrMessage]
    | httpError d =>
      have h1 : pyIn "Could not fetch data"
          ("Could not fetch data from Countries API: " ++ d) = true := by
        have hc : containsChars
            ("Could not fetch data from Countries API: " : String).data
            ("Could not fetch data" : String).data = true := by decide
        simpa [pyIn, String.data_append] using
          containsChars_append_left _ d.data _ hc
      have h2 : pyIn "Countries API"
          ("Could not fetch data from Countries API: " ++ d) = true := by
        have hc : containsChars
            ("Could not fetch data from Countries API: " : String).data
            ("Countries API" : String).data = true := by decide
        simpa [pyIn, String.data_append] using
          containsChars_append_left _ d.data _ hc
      simp [refresh_countries_route, refresh_countries_full,
        refreshErrMessage, countriesErrMessage, h1, h2]
  · intro cds
    simp +decide [refresh_countries_route, refresh_countries_full,
      refreshErrMessage, ratesErrMessage]
  · intro cds d hcl
    have h1 : pyIn "Could not fetch data"
        ("Could not fetch data from Exchange Rate API: " ++ d) = true := by
      have hc : containsChars
          ("Could not fetch data from Exchange Rate API: " : String).data
          ("Could not fetch data" : String).data = true := by decide
      simpa [pyIn, String.data_append] using
        containsChars_append_left _ d.data _ hc
    simp [refresh_countries_route, refresh_countries_full,
      refreshErrMessage, ratesErrMessage, h1, hcl]

/-- Witness for C8: a concrete exchange-rate HTTP failure aborts the
refresh, keeps the store unchanged, and is surfaced as `503` naming the
Exchange Rate API. -/
theorem claim_C8_upstream_failure_aborts_witness :
    refresh_countries_route (.ok []) (.error (.httpError "boom")) (fun _ => 0)
        [] = ([], .unavailable503 "Exchange Rate API") :=
  (claim_C8_upstream_failure_aborts (fun _ => 0) []).2.2 [] "boom" (by decide)

/-! ## Claim C1: the summary-image route -/

/-- C1 describes behaviour the route cannot exhibit: the route calls
`generate_summary_image_if_missing()` with no argument while the method
requires the session parameter `db` (and the route has no session to
pass), so **every** `GET /countries/image` request raises `TypeError` and
answers `500` — the lazy generation and the 200/404 outcomes are
unreachable.  The service method itself, when properly invoked, does leave
the summary artifact in place. -/
theorem claim_C1_image_route_type_error (db : List StoredCountry)
    (st : ImageState) :
    get_summary_image db st = (st, .internalError500) ∧
    (generate_summary_image_if_missing db st).summaryExists = true := by
  constructor
  · rfl
  · rcases st with ⟨cd, se⟩
    cases se <;> cases cd <;> rfl

end CountryAPI
